import Mathlib

/-!
# cencalvmcquery.c : command-line driver of the cencalvm query library

Shallow embedding of `src/pkgs/query/examples/c/cencalvmcquery.c`
(functions `usage`, `parseArgs`, `main`) together with the parts of the C
library the driver leans on (`getopt`, `fscanf`, `feof`).

* C strings are lists of characters (the bytes before the terminating NUL).
  `parseArgsBounded` is `parseArgs` with the four `char[256]` buffers of
  `main`: a `strcpy` of 256 characters or more writes past its buffer and
  the behaviour is undefined.  `parseArgs` is the same function without the
  capacity; the two agree on every run in which no `strcpy` overflows
  (`parseArgsBounded_sound`), and the theorems stated on `parseArgs` and
  `main` describe those runs.
* `getopt` is modelled in its POSIX and its GNU flavour; theorems hold for
  both.  The diagnostics `getopt` itself prints are not recorded.
* The cencalvm library and the file system are not part of this file of the
  repository.  Their answers are supplied by an environment record `Env`;
  every theorem quantifies over it.
* A run of `main` is recorded as its exit code and the ordered trace of the
  calls it makes.  The `while` loop of `main` need not terminate, so a run
  is computed up to a bound on the number of iterations; a run that has
  ended is the same for every larger bound (`main_more_fuel`).
-/

namespace Cencalvm

/-! ## C strings -/

/-- C string: the characters before the terminating NUL. -/
abbrev CStr := List Char

/-- C library `strlen`. -/
def strlen (s : CStr) : Nat := s.length

/-! ## Observable events -/

/-- Text written by the program with `fprintf(stderr, ...)`. -/
inductive Msg where
  /-- the text printed by `usage()` -/
  | usage
  /-- "Could not create query." -/
  | couldNotCreateQuery
  /-- "Could not get handle to error handler." -/
  | couldNotGetHandler
  /-- the string returned by `cencalvm_error_message(errHandler)` -/
  | libMessage
  /-- "Could not open file '%s' to read query locations." -/
  | couldNotOpenRead (name : CStr)
  /-- "Could not open file '%s' to write query data." -/
  | couldNotOpenWrite (name : CStr)
  deriving DecidableEq, Repr

/-- A `double` is represented by the decimal text it was converted from. -/
abbrev Dbl := List Char

/-- The three variables `lon`, `lat`, `elev` of `main`. -/
structure Coords where
  lon : Dbl
  lat : Dbl
  elev : Dbl
  deriving DecidableEq, Repr

/-- Calls made by the program, in the order they are made.  Library calls
carry the value the library returned. -/
inductive Event where
  /-- `fprintf(stderr, ...)` -/
  | stderr (m : Msg)
  /-- `cencalvm_createQuery()`; `ok` is false when it returned 0 -/
  | createQuery (ok : Bool)
  /-- `cencalvm_errorHandler(query)`; `ok` is false when it returned 0 -/
  | errorHandler (ok : Bool)
  /-- `cencalvm_error_logFilename(errHandler, name)` -/
  | logFilename (name : CStr)
  /-- `cencalvm_filename(query, name)` and its return value -/
  | filename (name : CStr) (ret : Int)
  /-- `cencalvm_open(query)` and its return value -/
  | dbOpen (ret : Int)
  /-- `fopen(name, "r")` (`write = false`) or `fopen(name, "w")` -/
  | fopen (name : CStr) (write : Bool) (ok : Bool)
  /-- `fscanf(fileIn, "%lf %lf %lf", ...)` and its return value -/
  | fscanf (ret : Int)
  /-- `feof(fileIn)`, the test of the `while` loop; `ret` is true at end of file -/
  | feof (ret : Bool)
  /-- the `k`-th call `cencalvm_query(query, &pVals, numVals, lon, lat, elev)` -/
  | query (k : Nat) (numVals : Nat) (at_ : Coords) (ret : Int)
  /-- `cencalvm_error_message(errHandler)` -/
  | errorMessage
  /-- `cencalvm_error_status(errHandler)` and its return value -/
  | errorStatus (ret : Int)
  /-- `cencalvm_error_resetStatus(errHandler)` -/
  | resetStatus
  /-- one line written to `fileOut`: the coordinates and the contents of `pVals` -/
  | outLine (at_ : Coords) (vals : List Dbl)
  /-- `cencalvm_close(query)` -/
  | close
  /-- `fclose(fileIn)` (`write = false`) or `fclose(fileOut)` -/
  | fclose (write : Bool)
  /-- `cencalvm_destroyQuery(query)` -/
  | destroyQuery
  deriving DecidableEq, Repr

/-- Function `usage` of the source: one `fprintf(stderr, ...)` of the usage text. -/
def usage : List Event := [Event.stderr Msg.usage]

/-! ## getopt -/

/-- The option string `"hi:l:o:d:"` passed to `getopt` by `parseArgs`. -/
def optstring : List Char := ['h', 'i', ':', 'l', ':', 'o', ':', 'd', ':']

/-- Look an option character up in an option string: `none` when it is not
an option, `some true` when it takes an argument (followed by a colon),
`some false` otherwise. -/
def optLookup : List Char → Char → Option Bool
  | [], _ => none
  | o :: rest, c =>
    if o = c ∧ c ≠ ':' then some (rest.head? = some ':')
    else optLookup rest c

/-- One return of `getopt`: the returned character (the question mark for an
unknown option or a missing option-argument) and the value of `optarg`. -/
structure GetoptRet where
  c : Char
  optarg : CStr
  deriving DecidableEq, Repr

/-- Successive `getopt` returns for the option characters `cs` of one argv
element (the characters after its leading dash).  `next` is the following
argv element, if there is one.  The second component tells whether `next`
was taken as the option-argument. -/
def scanCluster : List Char → Option CStr → List GetoptRet × Bool
  | [], _ => ([], false)
  | c :: cs, next =>
    if optLookup optstring c = none then
      -- not an option character
      (⟨'?', []⟩ :: (scanCluster cs next).1, (scanCluster cs next).2)
    else if optLookup optstring c = some false then
      -- option without argument
      (⟨c, []⟩ :: (scanCluster cs next).1, (scanCluster cs next).2)
    else if cs ≠ [] then
      -- option with its argument in the same argv element
      ([⟨c, cs⟩], false)
    else
      match next with
      | some v => ([⟨c, v⟩], true)
      | none => ([⟨'?', []⟩], false)

/-- The sequence of values returned by the successive calls
`getopt(argc, argv, "hi:l:o:d:")` until it returns `EOF`, for the argv
elements after `argv[0]`.

An element is an option element when it starts with a dash and has at
least one more character; the element `--` ends the scan.  At an element
that is not an option element the scan stops (POSIX behaviour,
`permute = false`) or skips it (GNU behaviour, which moves such elements
behind the options, `permute = true`). -/
def getoptAll (permute : Bool) : List CStr → List GetoptRet
  | [] => []
  | a :: rest =>
    match a with
    | '-' :: c :: cs =>
      if c = '-' ∧ cs = [] then []
      else
        match rest with
        | [] => (scanCluster (c :: cs) none).1
        | v :: rest' =>
          let r := scanCluster (c :: cs) (some v)
          r.1 ++ (if r.2 then getoptAll permute rest' else getoptAll permute (v :: rest'))
    | _ => if permute then getoptAll permute rest else []

/-! ## parseArgs -/

/-- The four filename buffers of `main`. -/
structure Bufs where
  filenameIn : CStr
  filenameOut : CStr
  filenameDB : CStr
  filenameLog : CStr
  deriving DecidableEq, Repr

/-- How the `while`/`switch` of `parseArgs` ends: the loop runs to `EOF`
with the buffers and `nparsed`, or `exit` is called inside it. -/
inductive ScanEnd where
  | done (b : Bufs) (nparsed : Nat)
  | exited (code : Int)
  deriving DecidableEq, Repr

/-- The `while ((c = getopt(...)) != EOF) switch (c)` loop of `parseArgs`,
run over the successive returns of `getopt`.  Result: what was written to
stderr, and how the loop ended. -/
def parseArgsLoop : List GetoptRet → Bufs → Nat → List Event × ScanEnd
  | [], b, nparsed => ([], ScanEnd.done b nparsed)
  | r :: rs, b, nparsed =>
    if r.c = 'i' then
      parseArgsLoop rs { b with filenameIn := r.optarg } (nparsed + 2)
    else if r.c = 'o' then
      parseArgsLoop rs { b with filenameOut := r.optarg } (nparsed + 2)
    else if r.c = 'd' then
      parseArgsLoop rs { b with filenameDB := r.optarg } (nparsed + 2)
    else if r.c = 'h' then
      -- nparsed += 1; usage(); exit(0);
      (usage, ScanEnd.exited 0)
    else if r.c = 'l' then
      parseArgsLoop rs { b with filenameLog := r.optarg } (nparsed + 2)
    else
      let t := parseArgsLoop rs b nparsed
      (usage ++ t.1, t.2)

/-- Outcome of `parseArgs`: it returns to `main` with the buffers filled,
or it ends the program with `exit(code)`.  Both carry what was written to
stderr. -/
inductive ParseOutcome where
  | returned (b : Bufs) (err : List Event)
  | exited (code : Int) (err : List Event)
  deriving DecidableEq, Repr

/-- Function `parseArgs` of the source.  `b` is the content of the four
buffers on entry, `argv` the argument vector (`argc` is its length). -/
def parseArgs (permute : Bool) (b : Bufs) (argv : List CStr) : ParseOutcome :=
  match parseArgsLoop (getoptAll permute argv.tail) b 1 with
  | (err, ScanEnd.exited code) => ParseOutcome.exited code err
  | (err, ScanEnd.done b' nparsed) =>
    if nparsed ≠ argv.length ∨ 0 = strlen b'.filenameIn ∨
        0 = strlen b'.filenameOut ∨ 0 = strlen b'.filenameDB then
      ParseOutcome.exited 1 (err ++ usage)
    else
      ParseOutcome.returned b' err

/-- Buffers that hold the empty string. -/
def emptyBufs : Bufs := ⟨[], [], [], []⟩

/-- Size of each of the buffers `filenameIn`, `filenameOut`, `filenameDB`,
`filenameLog` declared in `main`: `char[256]`. -/
def bufSize : Nat := 256

/-- C library `strcpy` into a buffer of `cap` bytes: the new content of the
buffer, or `none` when the source and its terminating NUL do not fit
(the copy writes past the buffer, undefined behaviour). -/
def strcpy (cap : Nat) (src : CStr) : Option CStr :=
  if src.length < cap then some src else none

/-- The option loop of `parseArgs` on the buffers of `main`, each of
`bufSize` bytes: as `parseArgsLoop`, with every `strcpy` checked against
the capacity.  `none` when a `strcpy` overflows its buffer. -/
def parseArgsLoopBounded : List GetoptRet → Bufs → Nat → Option (List Event × ScanEnd)
  | [], b, nparsed => some ([], ScanEnd.done b nparsed)
  | r :: rs, b, nparsed =>
    if r.c = 'i' then
      match strcpy bufSize r.optarg with
      | none => none
      | some s => parseArgsLoopBounded rs { b with filenameIn := s } (nparsed + 2)
    else if r.c = 'o' then
      match strcpy bufSize r.optarg with
      | none => none
      | some s => parseArgsLoopBounded rs { b with filenameOut := s } (nparsed + 2)
    else if r.c = 'd' then
      match strcpy bufSize r.optarg with
      | none => none
      | some s => parseArgsLoopBounded rs { b with filenameDB := s } (nparsed + 2)
    else if r.c = 'h' then
      -- nparsed += 1; usage(); exit(0);
      some (usage, ScanEnd.exited 0)
    else if r.c = 'l' then
      match strcpy bufSize r.optarg with
      | none => none
      | some s => parseArgsLoopBounded rs { b with filenameLog := s } (nparsed + 2)
    else
      match parseArgsLoopBounded rs b nparsed with
      | none => none
      | some t => some (usage ++ t.1, t.2)

/-- Function `parseArgs` of the source on the buffers of `main`, each of
`bufSize` bytes.  `none` when a `strcpy` overflows its buffer: the
behaviour of the program is undefined from there on. -/
def parseArgsBounded (permute : Bool) (b : Bufs) (argv : List CStr) : Option ParseOutcome :=
  match parseArgsLoopBounded (getoptAll permute argv.tail) b 1 with
  | none => none
  | some (err, ScanEnd.exited code) => some (ParseOutcome.exited code err)
  | some (err, ScanEnd.done b' nparsed) =>
    if nparsed ≠ argv.length ∨ 0 = strlen b'.filenameIn ∨
        0 = strlen b'.filenameOut ∨ 0 = strlen b'.filenameDB then
      some (ParseOutcome.exited 1 (err ++ usage))
    else
      some (ParseOutcome.returned b' err)

/-! ## The input stream: fscanf and feof -/

/-- The stream `fileIn`: the characters not read yet and the end-of-file
indicator that `feof` tests.  The indicator is set when a read is tried
with no character left. -/
structure FILE where
  buf : List Char
  eof : Bool
  deriving DecidableEq, Repr

/-- C library `isspace` (C locale). -/
def isSpace (c : Char) : Bool :=
  c = ' ' ∨ c = '\t' ∨ c = '\n' ∨ c = '\r' ∨ c = '\x0b' ∨ c = '\x0c'

/-- An optional sign at the head of the input: the sign read, and the rest. -/
def lexSign : List Char → List Char × List Char
  | '+' :: t => (['+'], t)
  | '-' :: t => (['-'], t)
  | s => ([], s)

/-- An optional fraction at the head of the input: the dot and the digits
after it, and the rest. -/
def lexFraction : List Char → List Char × List Char
  | '.' :: t => ('.' :: t.takeWhile Char.isDigit, t.dropWhile Char.isDigit)
  | s => ([], s)

/-- The input item of a `%lf` conversion, for decimal numbers: the longest
prefix of the input that is a prefix of
`[sign] digits [. digits] [(e|E) [sign] digits]`.
Result: the item, the unread rest, and whether the item is a complete
number (false is a matching failure).  Hexadecimal numbers, infinities and
NaNs are not recognised. -/
def lexDouble (s : List Char) : List Char × List Char × Bool :=
  let sg := lexSign s
  let ip := sg.2.takeWhile Char.isDigit
  let s2 := sg.2.dropWhile Char.isDigit
  let fr := lexFraction s2
  let mant := sg.1 ++ ip ++ fr.1
  if ip = [] ∧ fr.1.tail = [] then (mant, fr.2, false)
  else
    match fr.2 with
    | [] => (mant, [], true)
    | e :: t =>
      if e = 'e' ∨ e = 'E' then
        let es := lexSign t
        let ed := es.2.takeWhile Char.isDigit
        if ed = [] then (mant ++ e :: es.1, es.2, false)
        else (mant ++ e :: es.1 ++ ed, es.2.dropWhile Char.isDigit, true)
      else (mant, e :: t, true)

/-- A white-space directive of a `fscanf` format: read up to the first
character that is not white space, which stays unread. -/
def skipSpace (f : FILE) : FILE :=
  let s := f.buf.dropWhile isSpace
  ⟨s, f.eof || s.isEmpty⟩

/-- Result of one `%lf` conversion. -/
inductive Conv where
  /-- a number was read -/
  | ok (item : Dbl) (f : FILE)
  /-- end of input before any character of the item -/
  | inputFailure (f : FILE)
  /-- the input is not a number -/
  | matchFailure (f : FILE)
  deriving DecidableEq, Repr

/-- One `%lf` conversion: skip white space, then read the input item.  The
character after the item must be looked at to know the item has ended, so
the end-of-file indicator is set when the item runs to the end of the
input. -/
def scanDouble (f : FILE) : Conv :=
  let g := skipSpace f
  match g.buf with
  | [] => Conv.inputFailure g
  | c :: cs =>
    let r := lexDouble (c :: cs)
    let g' : FILE := ⟨r.2.1, g.eof || r.2.1.isEmpty⟩
    if r.2.2 then Conv.ok r.1 g' else Conv.matchFailure g'

/-- The value `EOF` of stdio. -/
def EOF : Int := -1

/-- The call `fscanf(fileIn, "%lf %lf %lf", &lon, &lat, &elev)`: return value,
stream afterwards, variables afterwards.  A variable is assigned only when
its conversion succeeds. -/
def fscanf3 (f : FILE) (v : Coords) : Int × FILE × Coords :=
  match scanDouble f with
  | Conv.inputFailure f1 => (EOF, f1, v)
  | Conv.matchFailure f1 => (0, f1, v)
  | Conv.ok x f1 =>
    match scanDouble (skipSpace f1) with
    | Conv.inputFailure f2 => (1, f2, { v with lon := x })
    | Conv.matchFailure f2 => (1, f2, { v with lon := x })
    | Conv.ok y f2 =>
      match scanDouble (skipSpace f2) with
      | Conv.inputFailure f3 => (2, f3, { v with lon := x, lat := y })
      | Conv.matchFailure f3 => (2, f3, { v with lon := x, lat := y })
      | Conv.ok z f3 => (3, f3, ⟨x, y, z⟩)

/-! ## The environment of a run -/

/-- What one call of `cencalvm_query` does: its return value, the value
`cencalvm_error_status` returns right after it, and the contents of `pVals`
after it. -/
structure QueryRes where
  ret : Int
  status : Int
  pVals : List Dbl
  deriving DecidableEq, Repr

/-- Everything `main` gets from outside: the flavour of `getopt`, the
answers of the cencalvm library and of `fopen`, and the contents of the
input file. -/
structure Env where
  /-- GNU `getopt` (true) or POSIX `getopt` (false) -/
  permute : Bool
  /-- `cencalvm_createQuery` returns a non-null handle -/
  createQuery : Bool
  /-- `cencalvm_errorHandler` returns a non-null handle -/
  errorHandler : Bool
  /-- return value of `cencalvm_filename` -/
  filenameRet : Int
  /-- return value of `cencalvm_open` -/
  openRet : Int
  /-- contents of the input file; `none` when `fopen(filenameIn, "r")` fails -/
  fileIn : Option (List Char)
  /-- `fopen(filenameOut, "w")` succeeds -/
  fileOut : Bool
  /-- the `k`-th call of `cencalvm_query` (counted from 0) -/
  query : Nat → QueryRes
  /-- value of `cencalvm_error_status` after the loop -/
  finalStatus : Int

/-- A run of `main`: the exit code (`none` while the program is still
running) and the calls made so far. -/
structure Run where
  code : Option Int
  trace : List Event
  deriving DecidableEq, Repr

/-- The run that first makes the calls `evs` and then goes on as `r`. -/
def Run.after (evs : List Event) (r : Run) : Run :=
  ⟨r.code, evs ++ r.trace⟩

/-- The value of `numVals` (the switch `ALLVALS` is defined). -/
def numVals : Nat := 8

/-- Lines 202 to 218 of `main`, the code after the `while` loop. -/
def afterLoop (env : Env) : Run :=
  if env.finalStatus ≠ 0 then
    ⟨some 1, [Event.close, Event.fclose false, Event.fclose true,
      Event.errorStatus env.finalStatus, Event.errorMessage, Event.stderr Msg.libMessage]⟩
  else
    ⟨some 0, [Event.close, Event.fclose false, Event.fclose true,
      Event.errorStatus env.finalStatus, Event.destroyQuery]⟩

/-- The loop `while (!feof(fileIn))` of `main` and the code after it.
`fuel` bounds the number of iterations of the loop body, `k` counts the
queries made so far, `f` is the input stream and `v` holds `lon`, `lat`,
`elev`. -/
def loop (env : Env) (fuel k : Nat) (f : FILE) (v : Coords) : Run :=
  if f.eof then Run.after [Event.feof true] (afterLoop env)
  else
    match fuel with
    | 0 => ⟨none, []⟩
    | fuel' + 1 =>
      let q := env.query k
      if q.ret ≠ 0 then
        if q.status = 2 then
          ⟨some 1, [Event.feof false, Event.query k numVals v q.ret, Event.errorMessage,
            Event.stderr Msg.libMessage, Event.errorStatus q.status]⟩
        else
          let s := fscanf3 f v
          Run.after [Event.feof false, Event.query k numVals v q.ret, Event.errorMessage,
            Event.stderr Msg.libMessage, Event.errorStatus q.status, Event.resetStatus,
            Event.outLine v q.pVals, Event.fscanf s.1]
            (loop env fuel' (k + 1) s.2.1 s.2.2)
      else
        let s := fscanf3 f v
        Run.after [Event.feof false, Event.query k numVals v q.ret,
          Event.outLine v q.pVals, Event.fscanf s.1]
          (loop env fuel' (k + 1) s.2.1 s.2.2)

/-- The initial value `0.0` of `lon`, `lat` and `elev`. -/
def zeroCoords : Coords := ⟨['0', '.', '0'], ['0', '.', '0'], ['0', '.', '0']⟩

/-- Lines 110 to 218 of `main`: what follows the return of `parseArgs`
with the buffers `b`. -/
def mainBody (env : Env) (b : Bufs) (fuel : Nat) : Run :=
  if env.createQuery = false then
    ⟨some 1, [Event.createQuery false, Event.stderr Msg.couldNotCreateQuery]⟩
  else if env.errorHandler = false then
    ⟨some 1, [Event.createQuery true, Event.errorHandler false,
      Event.stderr Msg.couldNotGetHandler]⟩
  else
    Run.after ([Event.createQuery true, Event.errorHandler true] ++
      (if strlen b.filenameLog > 0 then [Event.logFilename b.filenameLog] else [])) <|
    if env.filenameRet ≠ 0 then
      ⟨some 1, [Event.filename b.filenameDB env.filenameRet, Event.errorMessage,
        Event.stderr Msg.libMessage]⟩
    else if env.openRet ≠ 0 then
      ⟨some 1, [Event.filename b.filenameDB env.filenameRet, Event.dbOpen env.openRet,
        Event.errorMessage, Event.stderr Msg.libMessage]⟩
    else
      Run.after [Event.filename b.filenameDB env.filenameRet, Event.dbOpen env.openRet] <|
      match env.fileIn with
      | none =>
        ⟨some 1, [Event.fopen b.filenameIn false false,
          Event.stderr (Msg.couldNotOpenRead b.filenameIn)]⟩
      | some text =>
        if env.fileOut = false then
          ⟨some 1, [Event.fopen b.filenameIn false true, Event.fopen b.filenameOut true false,
            Event.stderr (Msg.couldNotOpenWrite b.filenameIn)]⟩
        else
          let s := fscanf3 ⟨text, false⟩ zeroCoords
          Run.after [Event.fopen b.filenameIn false true, Event.fopen b.filenameOut true true,
            Event.fscanf s.1] (loop env fuel 0 s.2.1 s.2.2)

/-- Function `main` of the source.  `uninit` is the indeterminate content of
the four local buffers on entry, `fuel` bounds the iterations of the
`while` loop. -/
def main (env : Env) (uninit : Bufs) (argv : List CStr) (fuel : Nat) : Run :=
  match parseArgs env.permute uninit argv with
  | ParseOutcome.exited code err => ⟨some code, err⟩
  | ParseOutcome.returned b err => Run.after err (mainBody env b fuel)

/-! ## Argument vectors built from flags and operands -/

/-- One piece of a command line: a flag followed by its value in the next
argv element (`-f value`), or a single operand. -/
inductive Item where
  | flag (f : Char) (v : CStr)
  | operand (a : CStr)
  deriving DecidableEq, Repr

/-- An argv element that `getopt` takes for options: a dash and at least
one more character. -/
def isOptionElem : CStr → Bool
  | '-' :: _ :: _ => true
  | _ => false

/-- The flag of an item is one of `-i`, `-o`, `-d`, `-l`; an operand is not
an option element. -/
def Item.wf : Item → Prop
  | Item.flag f _ => f = 'i' ∨ f = 'o' ∨ f = 'd' ∨ f = 'l'
  | Item.operand a => isOptionElem a = false

instance (it : Item) : Decidable it.wf :=
  match it with
  | Item.flag f _ => inferInstanceAs (Decidable (f = 'i' ∨ f = 'o' ∨ f = 'd' ∨ f = 'l'))
  | Item.operand a => inferInstanceAs (Decidable (isOptionElem a = false))

/-- Whether the item is a flag with its value. -/
def Item.isFlag : Item → Bool
  | Item.flag _ _ => true
  | Item.operand _ => false

/-- The argv elements of a list of items. -/
def renderItems : List Item → List CStr
  | [] => []
  | Item.flag f v :: rest => ['-', f] :: v :: renderItems rest
  | Item.operand a :: rest => a :: renderItems rest

/-- The `getopt` returns that the flags among the items give. -/
def flagRets : List Item → List GetoptRet
  | [] => []
  | Item.flag f v :: rest => ⟨f, v⟩ :: flagRets rest
  | Item.operand _ :: rest => flagRets rest

/-- The items the option scan gets to: all of them with GNU `getopt`, the
ones before the first operand with POSIX `getopt`. -/
def scanned (permute : Bool) (items : List Item) : List Item :=
  if permute then items else items.takeWhile Item.isFlag

/-- The value given with the last occurrence of flag `f`, or `init` when the
flag does not occur. -/
def lastOf (f : Char) (init : CStr) (items : List Item) : CStr :=
  ((flagRets items).filter (fun r => r.c = f)).getLast?.elim init (fun r => r.optarg)

/-- Number of `cencalvm_query` calls in a trace. -/
def queryCount (t : List Event) : Nat :=
  (t.filter (fun e => match e with | Event.query _ _ _ _ => true | _ => false)).length

/-- The output lines in a trace, in the order they were written. -/
def outLines (t : List Event) : List (Coords × List Dbl) :=
  t.filterMap (fun e => match e with | Event.outLine c vals => some (c, vals) | _ => none)

/-- Calls that `main` makes before its `while` loop is entered (the first
`fscanf` included); the error message calls occur in the loop as well. -/
def preEvent : Event → Bool
  | Event.stderr _ => true
  | Event.createQuery _ => true
  | Event.errorHandler _ => true
  | Event.logFilename _ => true
  | Event.filename _ _ => true
  | Event.dbOpen _ => true
  | Event.fopen _ _ _ => true
  | Event.fscanf _ => true
  | Event.errorMessage => true
  | _ => false

/-! ## Well-formed input files -/

/-- White space between two numbers: at least one character, white space only. -/
def IsSep (s : List Char) : Prop := s ≠ [] ∧ ∀ c ∈ s, isSpace c = true

/-- A text that a `%lf` conversion reads as one complete number when white
space follows it; it does not start with white space. -/
def IsNum (t : List Char) : Prop :=
  (∃ a t', t = a :: t' ∧ isSpace a = false) ∧
  ∀ c rest, isSpace c = true → lexDouble (t ++ c :: rest) = (t, c :: rest, true)

/-- One location of the input file: three numbers, each followed by white
space (the last one by a newline, say). -/
structure Location where
  at_ : Coords
  sep1 : List Char
  sep2 : List Char
  sep3 : List Char

/-- The text of a location. -/
def Location.text (l : Location) : List Char :=
  l.at_.lon ++ (l.sep1 ++ (l.at_.lat ++ (l.sep2 ++ (l.at_.elev ++ l.sep3))))

/-- The three coordinates are numbers and the three separators white space. -/
def Location.wf (l : Location) : Prop :=
  IsNum l.at_.lon ∧ IsNum l.at_.lat ∧ IsNum l.at_.elev ∧
  IsSep l.sep1 ∧ IsSep l.sep2 ∧ IsSep l.sep3

/-- The text of an input file that holds the given locations. -/
def inputText : List Location → List Char
  | [] => []
  | l :: ls => l.text ++ inputText ls

/-- The output lines expected for the locations `ls` when the first of them
is queried by call number `k`: the coordinates of each location with the
values its query left in `pVals`. -/
def expectedLines (env : Env) : Nat → List Location → List (Coords × List Dbl)
  | _, [] => []
  | k, l :: ls => (l.at_, (env.query k).pVals) :: expectedLines env (k + 1) ls

/-- The coordinates passed to the `cencalvm_query` calls of a trace, in order. -/
def queryCoords (t : List Event) : List Coords :=
  t.filterMap (fun e => match e with | Event.query _ _ c _ => some c | _ => none)

/-! ## Concrete inputs -/

/-- Name of the program, `argv[0]`. -/
def exProg : CStr := "cencalvmcquery".toList

/-- Command line `cencalvmcquery -i in -o out -d db`. -/
def argvOK : List CStr :=
  [exProg, "-i".toList, "in".toList, "-o".toList, "out".toList, "-d".toList, "db".toList]

/-- Command line `cencalvmcquery -h`. -/
def argvHelp : List CStr := [exProg, "-h".toList]

/-- Command line `cencalvmcquery -o out -d db`. -/
def argvNoInput : List CStr := [exProg, "-o".toList, "out".toList, "-d".toList, "db".toList]

/-- Command line `cencalvmcquery -ifile -o out -d db extra`. -/
def argvAttached : List CStr :=
  [exProg, "-ifile".toList, "-o".toList, "out".toList, "-d".toList, "db".toList, "extra".toList]

/-- Command line `cencalvmcquery -h extra`. -/
def argvHelpOperand : List CStr := [exProg, "-h".toList, "extra".toList]

/-- Command line `cencalvmcquery -x -h -i in`. -/
def argvUnknownHelp : List CStr :=
  [exProg, "-x".toList, "-h".toList, "-i".toList, "in".toList]

/-- Items of `-i a -o out -d db -i in -l log`. -/
def itemsFull : List Item :=
  [Item.flag 'i' "a".toList, Item.flag 'o' "out".toList, Item.flag 'd' "db".toList,
    Item.flag 'i' "in".toList, Item.flag 'l' "log".toList]

/-- A file name of 256 characters: with its NUL it needs 257 bytes. -/
def longValue : CStr := List.replicate 256 'a'

/-- Items of `-i aaa...a -o out -d db`, the value of `-i` being `longValue`. -/
def itemsLong : List Item :=
  [Item.flag 'i' longValue, Item.flag 'o' "out".toList, Item.flag 'd' "db".toList]

/-- Items of `-i in extra -o out -d db`. -/
def itemsOperand : List Item :=
  [Item.flag 'i' "in".toList, Item.operand "extra".toList, Item.flag 'o' "out".toList,
    Item.flag 'd' "db".toList]

/-- An environment in which every library call succeeds: the input file
holds `text`, every query returns 0 and leaves `pVals` empty. -/
def envOK (permute : Bool) (text : List Char) : Env :=
  ⟨permute, true, true, 0, 0, some text, true, fun _ => ⟨0, 0, []⟩, 0⟩

/-- As `envOK`, but every query returns 1 with the error status 1 (an
error that is not fatal). -/
def envWarn (text : List Char) : Env :=
  ⟨false, true, true, 0, 0, some text, true, fun _ => ⟨1, 1, []⟩, 0⟩

/-- As `envOK`, but the second query returns 1 with the fatal error status 2. -/
def envFatal (text : List Char) : Env :=
  ⟨false, true, true, 0, 0, some text, true,
    fun k => if k = 1 then ⟨1, 2, []⟩ else ⟨0, 0, []⟩, 0⟩

/-- As `envOK`, but the error status after the loop is 1. -/
def envFinalErr (text : List Char) : Env :=
  ⟨false, true, true, 0, 0, some text, true, fun _ => ⟨0, 0, []⟩, 1⟩

/-- As `envOK`, but the input file cannot be opened. -/
def envNoInput : Env :=
  ⟨false, true, true, 0, 0, none, true, fun _ => ⟨0, 0, []⟩, 0⟩

/-- As `envOK`, but the output file cannot be opened. -/
def envNoOutput : Env :=
  ⟨false, true, true, 0, 0, some [], false, fun _ => ⟨0, 0, []⟩, 0⟩

/-- Input text of three lines, each a complete triple. -/
def threeLines : List Char := "1 2 3\n4 5 6\n7 8 9\n".toList

/-- Input text whose first line is a header, not a location. -/
def headerText : List Char := "lon lat elev\n1 2 3\n".toList

/-- Input file of the two locations `1 2 3` and `4.5 60 7`, one per line. -/
def twoLocations : List Location :=
  [⟨⟨['1'], ['2'], ['3']⟩, [' '], [' '], ['\n']⟩,
    ⟨⟨['4'], ['6', '0'], ['7']⟩, [' '], [' ', ' '], ['\n']⟩]

/-! ## Theorems -/

/-! ### parseArgs -/

theorem parseArgsLoop_err (rs : List GetoptRet) (b : Bufs) (n : Nat) :
    ∀ e ∈ (parseArgsLoop rs b n).1, e = Event.stderr Msg.usage := by
  induction rs generalizing b n with
  | nil => simp [parseArgsLoop]
  | cons r rs ih =>
    simp only [parseArgsLoop]
    split_ifs
    · exact ih _ _
    · exact ih _ _
    · exact ih _ _
    · simp [usage]
    · exact ih _ _
    · intro e he
      simp only [usage, List.singleton_append, List.mem_cons] at he
      rcases he with he | he
      · exact he
      · exact ih _ _ e he

theorem parseArgsLoop_reach_h (pre : List GetoptRet) (r : GetoptRet) (post : List GetoptRet)
    (b : Bufs) (n : Nat) (hr : r.c = 'h') (hpre : ∀ x ∈ pre, x.c ≠ 'h') :
    parseArgsLoop (pre ++ r :: post) b n =
      ((parseArgsLoop pre b n).1 ++ usage, ScanEnd.exited 0) := by
  induction pre generalizing b n with
  | nil => simp [parseArgsLoop, hr]
  | cons x pre ih =>
    have hx : x.c ≠ 'h' := hpre x (by simp)
    have hpre' : ∀ y ∈ pre, y.c ≠ 'h' := fun y hy => hpre y (by simp [hy])
    simp only [List.cons_append, parseArgsLoop]
    split_ifs
    · exact ih _ _ hpre'
    · exact ih _ _ hpre'
    · exact ih _ _ hpre'
    · exact ih _ _ hpre'
    · have h := ih b n hpre'
      simp only [List.append_eq] at *
      rw [h]
      simp

/-- Without `-h` the option loop runs to the end; a buffer whose flag never
comes keeps its content. -/
theorem parseArgsLoop_done (rs : List GetoptRet) (b : Bufs) (n : Nat)
    (hh : ∀ r ∈ rs, r.c ≠ 'h') :
    ∃ b' n', (parseArgsLoop rs b n).2 = ScanEnd.done b' n' ∧
      ((∀ r ∈ rs, r.c ≠ 'i') → b'.filenameIn = b.filenameIn) ∧
      ((∀ r ∈ rs, r.c ≠ 'o') → b'.filenameOut = b.filenameOut) ∧
      ((∀ r ∈ rs, r.c ≠ 'd') → b'.filenameDB = b.filenameDB) := by
  induction rs generalizing b n with
  | nil => exact ⟨b, n, by simp [parseArgsLoop]⟩
  | cons r rs ih =>
    have hr : r.c ≠ 'h' := hh r (by simp)
    have hh' : ∀ y ∈ rs, y.c ≠ 'h' := fun y hy => hh y (by simp [hy])
    simp only [parseArgsLoop]
    split_ifs with h1 h2 h3 h4
    · obtain ⟨b', n', e, hi, ho, hd⟩ := ih { b with filenameIn := r.optarg } (n + 2) hh'
      refine ⟨b', n', e, ?_, ?_, ?_⟩
      · intro h; exact absurd h1 (h r (by simp))
      · intro h; exact ho (fun y hy => h y (by simp [hy]))
      · intro h; exact hd (fun y hy => h y (by simp [hy]))
    · obtain ⟨b', n', e, hi, ho, hd⟩ := ih { b with filenameOut := r.optarg } (n + 2) hh'
      refine ⟨b', n', e, ?_, ?_, ?_⟩
      · intro h; exact hi (fun y hy => h y (by simp [hy]))
      · intro h; exact absurd h2 (h r (by simp))
      · intro h; exact hd (fun y hy => h y (by simp [hy]))
    · obtain ⟨b', n', e, hi, ho, hd⟩ := ih { b with filenameDB := r.optarg } (n + 2) hh'
      refine ⟨b', n', e, ?_, ?_, ?_⟩
      · intro h; exact hi (fun y hy => h y (by simp [hy]))
      · intro h; exact ho (fun y hy => h y (by simp [hy]))
      · intro h; exact absurd h3 (h r (by simp))
    · obtain ⟨b', n', e, hi, ho, hd⟩ := ih { b with filenameLog := r.optarg } (n + 2) hh'
      refine ⟨b', n', e, ?_, ?_, ?_⟩
      · intro h; exact hi (fun y hy => h y (by simp [hy]))
      · intro h; exact ho (fun y hy => h y (by simp [hy]))
      · intro h; exact hd (fun y hy => h y (by simp [hy]))
    · obtain ⟨b', n', e, hi, ho, hd⟩ := ih b n hh'
      refine ⟨b', n', e, ?_, ?_, ?_⟩
      · intro h; exact hi (fun y hy => h y (by simp [hy]))
      · intro h; exact ho (fun y hy => h y (by simp [hy]))
      · intro h; exact hd (fun y hy => h y (by simp [hy]))


theorem getoptAll_items (permute : Bool) (items : List Item) (hwf : ∀ it ∈ items, it.wf) :
    getoptAll permute (renderItems items) = flagRets (scanned permute items) := by
  induction items with
  | nil => cases permute <;> simp [renderItems, getoptAll, scanned, flagRets]
  | cons it items ih =>
    have hwf' : ∀ x ∈ items, x.wf := fun x hx => hwf x (by simp [hx])
    have hit := hwf it (by simp)
    cases it with
    | flag f v =>
      have hsc : scanned permute (Item.flag f v :: items) = Item.flag f v :: scanned permute items := by
        cases permute <;> simp [scanned, Item.isFlag, List.takeWhile]
      rw [hsc]
      simp only [Item.wf] at hit
      rcases hit with h | h | h | h <;> subst h <;>
        simp [renderItems, getoptAll, scanCluster, optLookup, optstring, flagRets, ih hwf']
    | operand a =>
      simp only [Item.wf] at hit
      have hsc : flagRets (scanned permute (Item.operand a :: items)) =
          if permute then flagRets (scanned permute items) else [] := by
        cases permute <;> simp [scanned, Item.isFlag, List.takeWhile, flagRets]
      rw [hsc, ← ih hwf']
      simp only [renderItems]
      rw [getoptAll]
      intro c cs h
      subst h
      simp [isOptionElem] at hit

theorem lastOf_flag (f g : Char) (init v : CStr) (rest : List Item) :
    lastOf f init (Item.flag g v :: rest) = lastOf f (if g = f then v else init) rest := by
  unfold lastOf
  by_cases h : g = f
  · simp only [flagRets, h, decide_True, List.filter_cons_of_pos, if_true, List.getLast?_cons]
    cases ((flagRets rest).filter (fun r => decide (r.c = f))).getLast? <;> rfl
  · simp [flagRets, h]

theorem lastOf_operand (f : Char) (init a : CStr) (rest : List Item) :
    lastOf f init (Item.operand a :: rest) = lastOf f init rest := by
  simp [lastOf, flagRets]

/-- The option loop over flags with values: no usage text, two argv elements
counted per flag, each buffer holding the last value of its flag. -/
theorem parseArgsLoop_flagRets (items : List Item) (hwf : ∀ it ∈ items, it.wf) (b : Bufs) (n : Nat) :
    parseArgsLoop (flagRets items) b n =
      ([], ScanEnd.done
        ⟨lastOf 'i' b.filenameIn items, lastOf 'o' b.filenameOut items,
          lastOf 'd' b.filenameDB items, lastOf 'l' b.filenameLog items⟩
        (n + 2 * (flagRets items).length)) := by
  induction items generalizing b n with
  | nil => simp [flagRets, parseArgsLoop, lastOf]
  | cons it items ih =>
    have hwf' : ∀ x ∈ items, x.wf := fun x hx => hwf x (by simp [hx])
    have hit := hwf it (by simp)
    cases it with
    | flag f v =>
      simp only [Item.wf] at hit
      rcases hit with h | h | h | h <;> subst h <;>
        simp [flagRets, parseArgsLoop, ih hwf', lastOf_flag] <;> omega
    | operand a =>
      simp [flagRets, lastOf_operand, ih hwf']

theorem scanned_wf (permute : Bool) (items : List Item) (hwf : ∀ it ∈ items, it.wf) :
    ∀ it ∈ scanned permute items, it.wf := by
  intro it hit
  cases permute with
  | true => exact hwf it (by simpa [scanned] using hit)
  | false =>
    exact hwf it ((List.takeWhile_sublist _).subset (by simpa [scanned] using hit))

theorem length_renderItems (items : List Item) :
    (renderItems items).length =
      2 * (flagRets items).length + (items.filter (fun it => !it.isFlag)).length := by
  induction items with
  | nil => simp [renderItems, flagRets]
  | cons it items ih =>
    cases it with
    | flag f v => simp [renderItems, flagRets, Item.isFlag, ih]; omega
    | operand a => simp [renderItems, flagRets, Item.isFlag, ih]; omega

theorem length_flagRets_scanned (permute : Bool) (items : List Item) :
    (flagRets (scanned permute items)).length ≤ (flagRets items).length := by
  cases permute with
  | true => simp [scanned]
  | false =>
    simp only [scanned, Bool.false_eq_true, if_false]
    induction items with
    | nil => simp
    | cons it items ih =>
      cases it with
      | flag f v => simp [List.takeWhile, Item.isFlag, flagRets]; exact ih
      | operand a => simp [List.takeWhile, Item.isFlag, flagRets]

theorem lastOf_ne_nil (f : Char) (items : List Item)
    (hval : ∀ r ∈ flagRets items, r.optarg ≠ []) (init : CStr)
    (h : ∃ r ∈ flagRets items, r.c = f) : lastOf f init items ≠ [] := by
  unfold lastOf
  cases hl : ((flagRets items).filter (fun r => r.c = f)).getLast? with
  | none =>
    obtain ⟨r, hr, hc⟩ := h
    have hm : r ∈ (flagRets items).filter (fun r => r.c = f) := by
      simp [List.mem_filter, hr, hc]
    rw [List.getLast?_eq_none_iff.mp hl] at hm
    simp at hm
  | some r =>
    obtain ⟨ys, hys⟩ := List.getLast?_eq_some_iff.mp hl
    have hm : r ∈ (flagRets items).filter (fun r => r.c = f) := by
      rw [hys]; simp
    exact hval r (List.mem_filter.mp hm).1

theorem scanCluster_letter (cs : List Char) (next : Option CStr) :
    ∀ r ∈ (scanCluster cs next).1, r.c = '?' ∨ r.c ∈ cs := by
  induction cs with
  | nil => simp [scanCluster]
  | cons c cs ih =>
    intro r hr
    rw [scanCluster.eq_def] at hr
    simp only [] at hr
    split_ifs at hr
    · simp only [List.mem_cons] at hr
      rcases hr with hr | hr
      · left; rw [hr]
      · rcases ih r hr with h | h
        · exact Or.inl h
        · exact Or.inr (List.mem_cons_of_mem _ h)
    · simp only [List.mem_cons] at hr
      rcases hr with hr | hr
      · right; rw [hr]; simp
      · rcases ih r hr with h | h
        · exact Or.inl h
        · exact Or.inr (List.mem_cons_of_mem _ h)
    · simp only [List.mem_singleton] at hr
      right; rw [hr]; simp
    · split at hr
      · simp only [List.mem_singleton] at hr
        right; rw [hr]; simp
      · simp only [List.mem_singleton] at hr
        left; rw [hr]

/-- An option character returned by the scan stands after the dash of some
argv element: a flag that is written nowhere is never returned. -/
theorem getoptAll_letter (permute : Bool) (n : Nat) :
    ∀ (args : List CStr), args.length ≤ n → ∀ r ∈ getoptAll permute args,
      r.c = '?' ∨ ∃ a ∈ args, ∃ cs, a = '-' :: cs ∧ r.c ∈ cs := by
  induction n with
  | zero =>
    intro args hlen r hr
    have : args = [] := List.length_eq_zero.mp (Nat.le_zero.mp hlen)
    subst this
    simp [getoptAll] at hr
  | succ n ih =>
    intro args hlen r hr
    cases args with
    | nil => simp [getoptAll] at hr
    | cons a rest =>
      have lift : (r.c = '?' ∨ ∃ x ∈ rest, ∃ cs, x = '-' :: cs ∧ r.c ∈ cs) →
          (r.c = '?' ∨ ∃ x ∈ a :: rest, ∃ cs, x = '-' :: cs ∧ r.c ∈ cs) := by
        rintro (h | ⟨x, hx, cs, h1, h2⟩)
        · exact Or.inl h
        · exact Or.inr ⟨x, List.mem_cons_of_mem _ hx, cs, h1, h2⟩
      have hrest : rest.length ≤ n := by simp at hlen; omega
      unfold getoptAll at hr
      split at hr
      · rename_i c cs
        split_ifs at hr with hdd
        · simp at hr
        · have here : ∀ next, r ∈ (scanCluster (c :: cs) next).1 →
              (r.c = '?' ∨ ∃ x ∈ ('-' :: c :: cs) :: rest, ∃ cs', x = '-' :: cs' ∧ r.c ∈ cs') := by
            intro next hm
            rcases scanCluster_letter (c :: cs) next r hm with h | h
            · exact Or.inl h
            · exact Or.inr ⟨_, by simp, c :: cs, rfl, h⟩
          split at hr
          · exact here none hr
          · rename_i v rest'
            simp only [List.mem_append] at hr
            rcases hr with hr | hr
            · exact here (some v) hr
            · apply lift
              split_ifs at hr
              · have hl : rest'.length ≤ n := by simp at hrest; omega
                rcases ih rest' hl r hr with h | ⟨x, hx, cs', h1, h2⟩
                · exact Or.inl h
                · exact Or.inr ⟨x, List.mem_cons_of_mem _ hx, cs', h1, h2⟩
              · exact ih (v :: rest') hrest r hr
      · split_ifs at hr
        · exact lift (ih rest hrest r hr)
        · simp at hr

/-- Without the capacity of the buffers: an argument vector made only of
the flags -i, -o, -d, -l, each followed by a non-empty value in its own
argv element, with each of -i, -o, -d present, makes `parseArgs` return
with each buffer holding the last value of its flag. -/
theorem parseArgs_flags_returned (permute : Bool) (b : Bufs) (prog : CStr)
    (items : List Item)
    (hfl : ∀ it ∈ items, it.isFlag = true ∧ it.wf)
    (hval : ∀ r ∈ flagRets items, r.optarg ≠ [])
    (hi : ∃ r ∈ flagRets items, r.c = 'i') (ho : ∃ r ∈ flagRets items, r.c = 'o')
    (hd : ∃ r ∈ flagRets items, r.c = 'd') :
    parseArgs permute b (prog :: renderItems items) =
      ParseOutcome.returned
        ⟨lastOf 'i' b.filenameIn items, lastOf 'o' b.filenameOut items,
          lastOf 'd' b.filenameDB items, lastOf 'l' b.filenameLog items⟩ [] := by
  have hwf : ∀ it ∈ items, it.wf := fun it h => (hfl it h).2
  have hsc : scanned permute items = items := by
    cases permute with
    | true => simp [scanned]
    | false =>
      simp only [scanned, Bool.false_eq_true, if_false]
      exact List.takeWhile_eq_self_iff.mpr (fun it h => (hfl it h).1)
  have hlen : (renderItems items).length = 2 * (flagRets items).length := by
    rw [length_renderItems]
    have : items.filter (fun it => !it.isFlag) = [] := by
      simp only [List.filter_eq_nil_iff]
      intro it h
      simp [(hfl it h).1]
    simp [this]
  have h1 := lastOf_ne_nil 'i' items hval b.filenameIn hi
  have h2 := lastOf_ne_nil 'o' items hval b.filenameOut ho
  have h3 := lastOf_ne_nil 'd' items hval b.filenameDB hd
  unfold parseArgs
  simp only [List.tail_cons, getoptAll_items permute items hwf, hsc,
    parseArgsLoop_flagRets items hwf, List.length_cons, hlen, strlen]
  rw [if_neg]
  rintro (h | h | h | h)
  · omega
  · exact h1 (List.length_eq_zero.mp h.symm)
  · exact h2 (List.length_eq_zero.mp h.symm)
  · exact h3 (List.length_eq_zero.mp h.symm)

/-- C5 (amended): an argument vector made of the flags -i, -o, -d, -l, each
with its value in its own argv element, and of operands, at least one of
them, is rejected: the option loop prints nothing and leaves nparsed below
argc, so parseArgs prints the usage text and exits with code 1. -/
theorem C5_operand_rejected (permute : Bool) (b : Bufs) (prog : CStr) (items : List Item)
    (hwf : ∀ it ∈ items, it.wf) (hop : ∃ it ∈ items, it.isFlag = false) :
    (∃ b' nparsed,
      parseArgsLoop (getoptAll permute (prog :: renderItems items).tail) b 1 =
        ([], ScanEnd.done b' nparsed) ∧
      nparsed < (prog :: renderItems items).length) ∧
    parseArgs permute b (prog :: renderItems items) = ParseOutcome.exited 1 usage := by
  have hlen := length_renderItems items
  have hle := length_flagRets_scanned permute items
  have hpos : 0 < (items.filter (fun it => !it.isFlag)).length := by
    obtain ⟨it, hit, hf⟩ := hop
    apply List.length_pos_of_mem (a := it)
    simp [List.mem_filter, hit, hf]
  have hloop := parseArgsLoop_flagRets (scanned permute items)
    (scanned_wf permute items hwf) b 1
  constructor
  · simp only [List.tail_cons, getoptAll_items permute items hwf, hloop, List.length_cons]
    exact ⟨_, _, rfl, by omega⟩
  · unfold parseArgs
    simp only [List.tail_cons, getoptAll_items permute items hwf, hloop, List.length_cons]
    rw [if_pos]
    · simp
    · left
      omega

/-- When no `strcpy` overflows, the bounded option loop does what
`parseArgsLoop` does. -/
theorem parseArgsLoopBounded_sound (rs : List GetoptRet) (b : Bufs) (n : Nat)
    (t : List Event × ScanEnd) (h : parseArgsLoopBounded rs b n = some t) :
    parseArgsLoop rs b n = t := by
  induction rs generalizing b n t with
  | nil =>
    simp only [parseArgsLoopBounded, Option.some.injEq] at h
    simp [parseArgsLoop, h]
  | cons r rs ih =>
    simp only [parseArgsLoopBounded, strcpy] at h
    simp only [parseArgsLoop]
    by_cases hl : r.optarg.length < bufSize
    · simp only [if_pos hl] at h
      by_cases h1 : r.c = 'i'
      · rw [if_pos h1] at h ⊢; exact ih _ _ _ h
      rw [if_neg h1] at h ⊢
      by_cases h2 : r.c = 'o'
      · rw [if_pos h2] at h ⊢; exact ih _ _ _ h
      rw [if_neg h2] at h ⊢
      by_cases h3 : r.c = 'd'
      · rw [if_pos h3] at h ⊢; exact ih _ _ _ h
      rw [if_neg h3] at h ⊢
      by_cases h4 : r.c = 'h'
      · rw [if_pos h4] at h ⊢; exact Option.some.inj h
      rw [if_neg h4] at h ⊢
      by_cases h5 : r.c = 'l'
      · rw [if_pos h5] at h ⊢; exact ih _ _ _ h
      rw [if_neg h5] at h ⊢
      cases hr : parseArgsLoopBounded rs b n with
      | none => rw [hr] at h; cases h
      | some u =>
        rw [hr] at h
        simp only [Option.some.injEq] at h
        rw [ih _ _ _ hr, ← h]
    · simp only [if_neg hl] at h
      by_cases h1 : r.c = 'i'
      · rw [if_pos h1] at h; cases h
      rw [if_neg h1] at h ⊢
      by_cases h2 : r.c = 'o'
      · rw [if_pos h2] at h; cases h
      rw [if_neg h2] at h ⊢
      by_cases h3 : r.c = 'd'
      · rw [if_pos h3] at h; cases h
      rw [if_neg h3] at h ⊢
      by_cases h4 : r.c = 'h'
      · rw [if_pos h4] at h ⊢; exact Option.some.inj h
      rw [if_neg h4] at h ⊢
      by_cases h5 : r.c = 'l'
      · rw [if_pos h5] at h; cases h
      rw [if_neg h5] at h ⊢
      cases hr : parseArgsLoopBounded rs b n with
      | none => rw [hr] at h; cases h
      | some u =>
        rw [hr] at h
        simp only [Option.some.injEq] at h
        rw [ih _ _ _ hr, ← h]

/-- When every option value fits its buffer, no `strcpy` overflows. -/
theorem parseArgsLoopBounded_fits (rs : List GetoptRet) (b : Bufs) (n : Nat)
    (hfit : ∀ r ∈ rs, r.optarg.length < bufSize) :
    parseArgsLoopBounded rs b n = some (parseArgsLoop rs b n) := by
  induction rs generalizing b n with
  | nil => simp [parseArgsLoopBounded, parseArgsLoop]
  | cons r rs ih =>
    have hr : r.optarg.length < bufSize := hfit r (by simp)
    have hfit' : ∀ x ∈ rs, x.optarg.length < bufSize := fun x hx => hfit x (by simp [hx])
    simp only [parseArgsLoopBounded, parseArgsLoop, strcpy, if_pos hr]
    split_ifs
    · exact ih _ _ hfit'
    · exact ih _ _ hfit'
    · exact ih _ _ hfit'
    · rfl
    · exact ih _ _ hfit'
    · rw [ih _ _ hfit']

/-- On every run in which no `strcpy` overflows, `parseArgs` on the buffers
of `main` does what `parseArgs` without the capacity does. -/
theorem parseArgsBounded_sound (permute : Bool) (b : Bufs) (argv : List CStr)
    (o : ParseOutcome) (h : parseArgsBounded permute b argv = some o) :
    parseArgs permute b argv = o := by
  unfold parseArgsBounded at h
  unfold parseArgs
  cases hl : parseArgsLoopBounded (getoptAll permute argv.tail) b 1 with
  | none => rw [hl] at h; cases h
  | some t =>
    rw [hl] at h
    rw [parseArgsLoopBounded_sound _ _ _ t hl]
    obtain ⟨err, e⟩ := t
    cases e with
    | exited code => exact Option.some.inj h
    | done b' nparsed =>
      simp only at h ⊢
      split_ifs at h ⊢
      · exact Option.some.inj h
      · exact Option.some.inj h

/-- When every option value fits its buffer, `parseArgs` on the buffers of
`main` is defined and is `parseArgs` without the capacity. -/
theorem parseArgsBounded_fits (permute : Bool) (b : Bufs) (argv : List CStr)
    (hfit : ∀ r ∈ getoptAll permute argv.tail, r.optarg.length < bufSize) :
    parseArgsBounded permute b argv = some (parseArgs permute b argv) := by
  unfold parseArgsBounded parseArgs
  rw [parseArgsLoopBounded_fits _ b 1 hfit]
  generalize parseArgsLoop (getoptAll permute argv.tail) b 1 = t
  obtain ⟨err, e⟩ := t
  cases e with
  | exited code => rfl
  | done b' nparsed =>
    simp only
    split_ifs <;> rfl

/-- C7 (amended): an argument vector made only of the flags -i, -o, -d, -l,
each followed by a non-empty value of at most 255 characters (so that it
fits the 256-byte buffer with its NUL) in its own argv element, with each
of -i, -o, -d present (any order, repeats allowed), makes parseArgs return
without overflowing a buffer, printing the usage text or exiting; on return
the input, output and database buffers hold the value of the last
occurrence of their flag, and so does the log buffer when -l occurs (it is
left as it was otherwise). -/
theorem C7_parseArgs_accepts_flags (permute : Bool) (b : Bufs) (prog : CStr)
    (items : List Item)
    (hfl : ∀ it ∈ items, it.isFlag = true ∧ it.wf)
    (hval : ∀ r ∈ flagRets items, r.optarg ≠ [])
    (hfit : ∀ r ∈ flagRets items, r.optarg.length < bufSize)
    (hi : ∃ r ∈ flagRets items, r.c = 'i') (ho : ∃ r ∈ flagRets items, r.c = 'o')
    (hd : ∃ r ∈ flagRets items, r.c = 'd') :
    parseArgsBounded permute b (prog :: renderItems items) =
      some (ParseOutcome.returned
        ⟨lastOf 'i' b.filenameIn items, lastOf 'o' b.filenameOut items,
          lastOf 'd' b.filenameDB items, lastOf 'l' b.filenameLog items⟩ []) := by
  have hwf : ∀ it ∈ items, it.wf := fun it h => (hfl it h).2
  have hsc : scanned permute items = items := by
    cases permute with
    | true => simp [scanned]
    | false =>
      simp only [scanned, Bool.false_eq_true, if_false]
      exact List.takeWhile_eq_self_iff.mpr (fun it h => (hfl it h).1)
  have hscan : getoptAll permute (prog :: renderItems items).tail = flagRets items := by
    rw [List.tail_cons, getoptAll_items permute items hwf, hsc]
  rw [parseArgsBounded_fits permute b _ (by rw [hscan]; exact hfit),
    parseArgs_flags_returned permute b prog items hfl hval hi ho hd]

/-- Witness of C7 (amended) at the command line -i a -o out -d db -i in -l log. -/
theorem C7_witness :
    (∀ it ∈ itemsFull, it.isFlag = true ∧ it.wf) ∧
    (∀ r ∈ flagRets itemsFull, r.optarg.length < bufSize) ∧
    parseArgsBounded false emptyBufs (exProg :: renderItems itemsFull) =
      some (ParseOutcome.returned
        ⟨"in".toList, "out".toList, "db".toList, "log".toList⟩ []) :=
  ⟨by decide, by decide,
    (C7_parseArgs_accepts_flags false emptyBufs exProg itemsFull (by decide) (by decide)
      (by decide) (by decide) (by decide) (by decide)).trans (by decide)⟩

/-- Counterexample to C7 as stated: the command line -i aaa...a -o out -d db
is made only of the flags -i, -o, -d, each followed by a non-empty value
in its own argv element, but the value of -i has 256 characters: the
strcpy into filenameIn writes 257 bytes into the 256-byte buffer, so
parseArgs does not return with the buffers holding the values. -/
theorem C7_counterexample :
    (∀ it ∈ itemsLong, it.isFlag = true ∧ it.wf) ∧
    (∀ r ∈ flagRets itemsLong, r.optarg ≠ []) ∧
    (∃ r ∈ flagRets itemsLong, r.c = 'i') ∧ (∃ r ∈ flagRets itemsLong, r.c = 'o') ∧
    (∃ r ∈ flagRets itemsLong, r.c = 'd') ∧
    longValue.length = 256 ∧
    strcpy bufSize longValue = none ∧
    (∀ permute, parseArgsBounded permute emptyBufs (exProg :: renderItems itemsLong) = none) ∧
    (∀ permute, ¬ ∃ b err, parseArgsBounded permute emptyBufs (exProg :: renderItems itemsLong) =
      some (ParseOutcome.returned b err)) := by
  have hlen : longValue.length = 256 := by
    unfold longValue
    exact List.length_replicate _ _
  have hcpy : strcpy bufSize longValue = none := by simp [strcpy, bufSize, hlen]
  have hne : longValue ≠ [] := by
    intro h
    rw [h] at hlen
    cases hlen
  have hwf : ∀ it ∈ itemsLong, it.isFlag = true ∧ it.wf := by
    simp [itemsLong, Item.isFlag, Item.wf]
  have h0 : ∀ permute,
      parseArgsBounded permute emptyBufs (exProg :: renderItems itemsLong) = none := by
    intro permute
    have hscan : getoptAll permute (exProg :: renderItems itemsLong).tail =
        ⟨'i', longValue⟩ :: [⟨'o', "out".toList⟩, ⟨'d', "db".toList⟩] := by
      rw [List.tail_cons, getoptAll_items permute itemsLong (fun it h => (hwf it h).2)]
      cases permute <;> simp [scanned, itemsLong, flagRets, Item.isFlag, List.takeWhile]
    have hover : ∀ (v : CStr) (rest : List GetoptRet), strcpy bufSize v = none →
        parseArgsLoopBounded (⟨'i', v⟩ :: rest) emptyBufs 1 = none := by
      intro v rest hv
      simp [parseArgsLoopBounded, hv]
    unfold parseArgsBounded
    rw [hscan, hover longValue _ hcpy]
  refine ⟨hwf, ?_, ?_, ?_, ?_, hlen, hcpy, h0, ?_⟩
  · intro r hr
    simp only [itemsLong, flagRets, List.mem_cons, List.mem_singleton, List.not_mem_nil,
      or_false] at hr
    rcases hr with rfl | rfl | rfl
    · exact hne
    · exact List.cons_ne_nil _ _
    · exact List.cons_ne_nil _ _
  · exact ⟨⟨'i', longValue⟩, by simp [itemsLong, flagRets], rfl⟩
  · exact ⟨⟨'o', "out".toList⟩, by simp [itemsLong, flagRets], rfl⟩
  · exact ⟨⟨'d', "db".toList⟩, by simp [itemsLong, flagRets], rfl⟩
  · intro permute ⟨b, err, h⟩
    rw [h0 permute] at h
    cases h

/-- Counterexample to C5 as stated: with the value attached to -i the
operand goes unnoticed (nparsed equals argc) and parseArgs returns; after
-h the exit code is 0. -/
theorem C5_counterexample :
    isOptionElem "extra".toList = false ∧
    (∀ permute, parseArgs permute emptyBufs argvAttached =
      ParseOutcome.returned ⟨"file".toList, "out".toList, "db".toList, []⟩ []) ∧
    (∀ permute, parseArgs permute emptyBufs argvHelpOperand = ParseOutcome.exited 0 usage) := by
  decide

/-- Witness of C5 (amended) at the command line -i in extra -o out -d db. -/
theorem C5_witness :
    (∃ it ∈ itemsOperand, it.isFlag = false) ∧
    ∀ permute, parseArgs permute emptyBufs (exProg :: renderItems itemsOperand) =
      ParseOutcome.exited 1 usage :=
  ⟨by decide, fun permute =>
    (C5_operand_rejected permute emptyBufs exProg itemsOperand (by decide) (by decide)).2⟩

/-- C4 (amended): when the option scan never returns one of i, o, d, and
never returns h, parseArgs started on empty buffers prints the usage text
and exits with code 1; main ends there, having written nothing but usage
text to stderr (no query is created). -/
theorem C4_missing_flag_rejected (env : Env) (argv : List CStr) (fuel : Nat)
    (hh : ∀ r ∈ getoptAll env.permute argv.tail, r.c ≠ 'h')
    (hmiss : (∀ r ∈ getoptAll env.permute argv.tail, r.c ≠ 'i') ∨
      (∀ r ∈ getoptAll env.permute argv.tail, r.c ≠ 'o') ∨
      (∀ r ∈ getoptAll env.permute argv.tail, r.c ≠ 'd')) :
    ∃ err, parseArgs env.permute emptyBufs argv = ParseOutcome.exited 1 (err ++ usage) ∧
      main env emptyBufs argv fuel = ⟨some 1, err ++ usage⟩ ∧
      ∀ e ∈ err ++ usage, e = Event.stderr Msg.usage := by
  obtain ⟨b', n', e, hi, ho, hd⟩ := parseArgsLoop_done _ emptyBufs 1 hh
  have herr := parseArgsLoop_err (getoptAll env.permute argv.tail) emptyBufs 1
  have hcond : n' ≠ argv.length ∨ 0 = strlen b'.filenameIn ∨
      0 = strlen b'.filenameOut ∨ 0 = strlen b'.filenameDB := by
    rcases hmiss with h | h | h
    · right; left; rw [hi h]; rfl
    · right; right; left; rw [ho h]; rfl
    · right; right; right; rw [hd h]; rfl
  have hp : parseArgs env.permute emptyBufs argv =
      ParseOutcome.exited 1
        ((parseArgsLoop (getoptAll env.permute argv.tail) emptyBufs 1).1 ++ usage) := by
    unfold parseArgs
    generalize parseArgsLoop (getoptAll env.permute argv.tail) emptyBufs 1 = t at e ⊢
    obtain ⟨t1, t2⟩ := t
    simp only at e
    subst e
    simp only [if_pos hcond]
  refine ⟨_, hp, ?_, ?_⟩
  · unfold main
    rw [hp]
  · intro x hx
    rcases List.mem_append.mp hx with hx | hx
    · exact herr x hx
    · simpa [usage] using hx

/-- Witness of C4 (amended) at the command line -o out -d db. -/
theorem C4_witness :
    (∀ r ∈ getoptAll false argvNoInput.tail, r.c ≠ 'i') ∧
    ∃ err, parseArgs false emptyBufs argvNoInput = ParseOutcome.exited 1 (err ++ usage) ∧
      main (envOK false []) emptyBufs argvNoInput 0 = ⟨some 1, err ++ usage⟩ ∧
      ∀ e ∈ err ++ usage, e = Event.stderr Msg.usage :=
  ⟨by decide, C4_missing_flag_rejected (envOK false []) argvNoInput 0 (by decide)
    (Or.inl (by decide))⟩

/-- Counterexample to C4 as stated: on the command line -h no required flag
is given, yet the exit code is 0, not 1. -/
theorem C4_counterexample :
    (∀ permute, ∀ r ∈ getoptAll permute argvHelp.tail, r.c ≠ 'i') ∧
    (∀ permute, parseArgs permute emptyBufs argvHelp = ParseOutcome.exited 0 usage) ∧
    (∀ permute, ¬ ∃ err, parseArgs permute emptyBufs argvHelp = ParseOutcome.exited 1 err) := by
  have h0 : ∀ permute, parseArgs permute emptyBufs argvHelp = ParseOutcome.exited 0 usage := by
    decide
  refine ⟨by decide, h0, ?_⟩
  intro permute ⟨err, h⟩
  rw [h0 permute] at h
  cases h

/-- C6: when the option scan reaches -h (the scan returns pre, then h, then
post, with no h in pre), parseArgs exits with code 0 after printing the
usage text: the outcome depends on the options before -h only, not on the
later ones, the buffers or argc, and main ends there with nothing in its
trace but usage text on stderr (no query, database or file call). -/
theorem C6_help_exits_zero (env : Env) (b : Bufs) (argv : List CStr) (fuel : Nat)
    (pre post : List GetoptRet) (r : GetoptRet)
    (hscan : getoptAll env.permute argv.tail = pre ++ r :: post)
    (hr : r.c = 'h') (hpre : ∀ x ∈ pre, x.c ≠ 'h') :
    parseArgs env.permute b argv =
      ParseOutcome.exited 0 ((parseArgsLoop pre b 1).1 ++ usage) ∧
    main env b argv fuel = ⟨some 0, (parseArgsLoop pre b 1).1 ++ usage⟩ ∧
    (main env b argv fuel).trace.getLast? = some (Event.stderr Msg.usage) ∧
    ∀ e ∈ (main env b argv fuel).trace, e = Event.stderr Msg.usage := by
  have hp : parseArgs env.permute b argv =
      ParseOutcome.exited 0 ((parseArgsLoop pre b 1).1 ++ usage) := by
    unfold parseArgs
    rw [hscan, parseArgsLoop_reach_h pre r post b 1 hr hpre]
  have hm : main env b argv fuel = ⟨some 0, (parseArgsLoop pre b 1).1 ++ usage⟩ := by
    unfold main
    rw [hp]
  refine ⟨hp, hm, ?_, ?_⟩
  · rw [hm]
    simp [usage]
  · rw [hm]
    intro x hx
    rcases List.mem_append.mp hx with hx | hx
    · exact parseArgsLoop_err pre b 1 x hx
    · simpa [usage] using hx

/-- Witness of C6 at the command line -x -h -i in. -/
theorem C6_witness :
    getoptAll false argvUnknownHelp.tail =
      [⟨'?', []⟩] ++ ⟨'h', []⟩ :: [⟨'i', "in".toList⟩] ∧
    main (envOK false []) emptyBufs argvUnknownHelp 0 =
      ⟨some 0, [Event.stderr Msg.usage, Event.stderr Msg.usage]⟩ :=
  ⟨by decide,
    (C6_help_exits_zero (envOK false []) emptyBufs argvUnknownHelp 0
      [⟨'?', []⟩] [⟨'i', "in".toList⟩] ⟨'h', []⟩ (by decide) (by decide) (by decide)).2.1.trans
      (by decide)⟩

/-! ### main -/

theorem Run.after_trace (evs : List Event) (r : Run) : (Run.after evs r).trace = evs ++ r.trace :=
  rfl

theorem Run.after_code (evs : List Event) (r : Run) : (Run.after evs r).code = r.code :=
  rfl

/-- An event that does not occur in the front part of a trace is found in
the back part. -/
theorem split_of_not_mem {α : Type} (A B pre post : List α) (q : α)
    (h : A ++ B = pre ++ q :: post) (hq : q ∉ A) :
    ∃ pre', pre = A ++ pre' ∧ B = pre' ++ q :: post := by
  induction A generalizing pre with
  | nil => exact ⟨pre, rfl, h⟩
  | cons a A ih =>
    cases pre with
    | nil =>
      simp only [List.cons_append, List.nil_append, List.cons.injEq] at h
      exact absurd (by simp [h.1]) hq
    | cons p pre =>
      simp only [List.cons_append, List.cons.injEq] at h
      obtain ⟨pre', h1, h2⟩ := ih pre h.2 (fun hm => hq (by simp [hm]))
      exact ⟨pre', by rw [h.1, h1]; rfl, h2⟩

theorem parseArgs_err (permute : Bool) (b : Bufs) (argv : List CStr) :
    (∀ c err, parseArgs permute b argv = ParseOutcome.exited c err →
      ∀ e ∈ err, e = Event.stderr Msg.usage) ∧
    (∀ b' err, parseArgs permute b argv = ParseOutcome.returned b' err →
      ∀ e ∈ err, e = Event.stderr Msg.usage) := by
  have herr := parseArgsLoop_err (getoptAll permute argv.tail) b 1
  unfold parseArgs
  generalize parseArgsLoop (getoptAll permute argv.tail) b 1 = t at herr ⊢
  obtain ⟨t1, t2⟩ := t
  simp only at herr
  cases t2 with
  | exited code =>
    constructor
    · intro c err h
      simp only [ParseOutcome.exited.injEq] at h
      rw [← h.2]; exact herr
    · intro b' err h
      simp at h
  | done b1 n =>
    constructor
    · intro c err h
      simp only at h
      split_ifs at h
      simp only [ParseOutcome.exited.injEq] at h
      rw [← h.2]
      intro e he
      rcases List.mem_append.mp he with he | he
      · exact herr e he
      · simpa [usage] using he
    · intro b' err h
      simp only at h
      split_ifs at h
      simp only [ParseOutcome.returned.injEq] at h
      rw [← h.2]; exact herr

theorem mem_pre {A X : List Event} (hA : ∀ e ∈ A, preEvent e = true)
    (hX : X.all preEvent = true) : ∀ e ∈ A ++ X, preEvent e = true := by
  intro e he
  rcases List.mem_append.mp he with he | he
  · exact hA e he
  · exact List.all_eq_true.mp hX e he

/-- The shape of every run of `main` after `parseArgs`: it ends before the
loop, with exit code 1 after a successful `cencalvm_open` if an `fopen`
failed, or it enters the loop after a successful `cencalvm_open` and two
successful `fopen`. -/
theorem mainBody_cases (env : Env) (b : Bufs) (fuel : Nat) :
    (∃ c pre, mainBody env b fuel = ⟨some c, pre⟩ ∧ (∀ e ∈ pre, preEvent e = true) ∧
      ((∃ n w, Event.fopen n w false ∈ pre) → c = 1 ∧ Event.dbOpen 0 ∈ pre)) ∨
    (∃ pre f v, mainBody env b fuel = Run.after pre (loop env fuel 0 f v) ∧
      (∀ e ∈ pre, preEvent e = true) ∧ Event.dbOpen 0 ∈ pre ∧
      ∀ n w, Event.fopen n w false ∉ pre) := by
  unfold mainBody
  by_cases h1 : env.createQuery = false
  · rw [if_pos h1]
    exact Or.inl ⟨1, _, rfl, List.all_eq_true.mp rfl, by simp⟩
  rw [if_neg h1]
  by_cases h2 : env.errorHandler = false
  · rw [if_pos h2]
    exact Or.inl ⟨1, _, rfl, List.all_eq_true.mp rfl, by simp⟩
  rw [if_neg h2]
  generalize hL : ([Event.createQuery true, Event.errorHandler true] ++
      (if strlen b.filenameLog > 0 then [Event.logFilename b.filenameLog] else [])) = L
  have hLpre : ∀ e ∈ L, preEvent e = true := by
    rw [← hL]
    split_ifs
    · exact List.all_eq_true.mp rfl
    · exact List.all_eq_true.mp rfl
  have hLfo : ∀ n w, Event.fopen n w false ∉ L := by
    intro n w hm
    exact absurd (hLpre _ hm) (by
      rw [← hL] at hm
      split_ifs at hm <;> simp at hm)
  by_cases h3 : env.filenameRet ≠ 0
  · rw [if_pos h3]
    refine Or.inl ⟨1, L ++ _, rfl, mem_pre hLpre rfl, ?_⟩
    rintro ⟨n, w, hm⟩
    rcases List.mem_append.mp hm with hm | hm
    · exact absurd hm (hLfo n w)
    · simp at hm
  rw [if_neg h3]
  by_cases h4 : env.openRet ≠ 0
  · rw [if_pos h4]
    refine Or.inl ⟨1, L ++ _, rfl, mem_pre hLpre rfl, ?_⟩
    rintro ⟨n, w, hm⟩
    rcases List.mem_append.mp hm with hm | hm
    · exact absurd hm (hLfo n w)
    · simp at hm
  rw [if_neg h4]
  have h4' : env.openRet = 0 := not_not.mp h4
  rw [h4']
  cases env.fileIn with
  | none =>
    refine Or.inl ⟨1, L ++ _, rfl, mem_pre hLpre rfl, ?_⟩
    intro _
    exact ⟨rfl, by simp [Run.after]⟩
  | some text =>
    by_cases h5 : env.fileOut = false
    · simp only []
      rw [if_pos h5]
      refine Or.inl ⟨1, L ++ _, rfl, mem_pre hLpre rfl, ?_⟩
      intro _
      exact ⟨rfl, by simp [Run.after]⟩
    · simp only []
      rw [if_neg h5]
      refine Or.inr ⟨L ++ ([Event.filename b.filenameDB env.filenameRet, Event.dbOpen 0] ++
        [Event.fopen b.filenameIn false true, Event.fopen b.filenameOut true true,
          Event.fscanf (fscanf3 ⟨text, false⟩ zeroCoords).1]),
        (fscanf3 ⟨text, false⟩ zeroCoords).2.1, (fscanf3 ⟨text, false⟩ zeroCoords).2.2, ?_,
        mem_pre hLpre rfl, by simp, ?_⟩
      · simp [Run.after]
      · intro n w hm
        rcases List.mem_append.mp hm with hm | hm
        · exact absurd hm (hLfo n w)
        · simp at hm

/-- The shape of every run of `main`: as `mainBody_cases`, the usage text
written by `parseArgs` included. -/
theorem main_cases (env : Env) (uninit : Bufs) (argv : List CStr) (fuel : Nat) :
    (∃ c pre, main env uninit argv fuel = ⟨some c, pre⟩ ∧ (∀ e ∈ pre, preEvent e = true) ∧
      ((∃ n w, Event.fopen n w false ∈ pre) → c = 1 ∧ Event.dbOpen 0 ∈ pre)) ∨
    (∃ pre f v, main env uninit argv fuel = Run.after pre (loop env fuel 0 f v) ∧
      (∀ e ∈ pre, preEvent e = true) ∧ Event.dbOpen 0 ∈ pre ∧
      ∀ n w, Event.fopen n w false ∉ pre) := by
  have hpe := parseArgs_err env.permute uninit argv
  unfold main
  cases hp : parseArgs env.permute uninit argv with
  | exited code err =>
    have herr := hpe.1 code err hp
    refine Or.inl ⟨code, err, rfl, ?_, ?_⟩
    · intro e he
      rw [herr e he]; rfl
    · rintro ⟨n, w, hm⟩
      have := herr _ hm
      cases this
  | returned b err =>
    have herr := hpe.2 b err hp
    have herr' : ∀ e ∈ err, preEvent e = true := by
      intro e he
      rw [herr e he]; rfl
    have hfo : ∀ n w, Event.fopen n w false ∉ err := by
      intro n w hm
      have := herr _ hm
      cases this
    rcases mainBody_cases env b fuel with ⟨c, pre, h, hpre, hf⟩ | ⟨pre, f, v, h, hpre, hdb, hf⟩
    · refine Or.inl ⟨c, err ++ pre, ?_, ?_, ?_⟩
      · simp only [h]; rfl
      · intro e he
        rcases List.mem_append.mp he with he | he
        · exact herr' e he
        · exact hpre e he
      · rintro ⟨n, w, hm⟩
        rcases List.mem_append.mp hm with hm | hm
        · exact absurd hm (hfo n w)
        · obtain ⟨hc, hd⟩ := hf ⟨n, w, hm⟩
          exact ⟨hc, List.mem_append.mpr (Or.inr hd)⟩
    · refine Or.inr ⟨err ++ pre, f, v, ?_, ?_, List.mem_append.mpr (Or.inr hdb), ?_⟩
      · simp only [h, Run.after, List.append_assoc]
      · intro e he
        rcases List.mem_append.mp he with he | he
        · exact herr' e he
        · exact hpre e he
      · intro n w hm
        rcases List.mem_append.mp hm with hm | hm
        · exact absurd hm (hfo n w)
        · exact absurd hm (hf n w)

/-! ### The loop, one iteration at a time -/

theorem loop_eof (env : Env) (fuel k : Nat) (f : FILE) (v : Coords) (he : f.eof = true) :
    loop env fuel k f v = Run.after [Event.feof true] (afterLoop env) := by
  rw [loop.eq_def, if_pos he]

theorem loop_zero (env : Env) (k : Nat) (f : FILE) (v : Coords) (he : f.eof = false) :
    loop env 0 k f v = ⟨none, []⟩ := by
  rw [loop.eq_def]
  simp [he]

theorem loop_fatal (env : Env) (fuel k : Nat) (f : FILE) (v : Coords) (he : f.eof = false)
    (hr : (env.query k).ret ≠ 0) (hs : (env.query k).status = 2) :
    loop env (fuel + 1) k f v =
      ⟨some 1, [Event.feof false, Event.query k numVals v (env.query k).ret,
        Event.errorMessage, Event.stderr Msg.libMessage, Event.errorStatus 2]⟩ := by
  rw [loop.eq_def]
  simp [he, hr, hs]

theorem loop_nonfatal (env : Env) (fuel k : Nat) (f : FILE) (v : Coords) (he : f.eof = false)
    (hr : (env.query k).ret ≠ 0) (hs : (env.query k).status ≠ 2) :
    loop env (fuel + 1) k f v =
      Run.after [Event.feof false, Event.query k numVals v (env.query k).ret,
        Event.errorMessage, Event.stderr Msg.libMessage,
        Event.errorStatus (env.query k).status, Event.resetStatus,
        Event.outLine v (env.query k).pVals, Event.fscanf (fscanf3 f v).1]
        (loop env fuel (k + 1) (fscanf3 f v).2.1 (fscanf3 f v).2.2) := by
  rw [loop.eq_def]
  simp [he, hr, hs]

theorem loop_ok (env : Env) (fuel k : Nat) (f : FILE) (v : Coords) (he : f.eof = false)
    (hr : (env.query k).ret = 0) :
    loop env (fuel + 1) k f v =
      Run.after [Event.feof false, Event.query k numVals v 0,
        Event.outLine v (env.query k).pVals, Event.fscanf (fscanf3 f v).1]
        (loop env fuel (k + 1) (fscanf3 f v).2.1 (fscanf3 f v).2.2) := by
  rw [loop.eq_def]
  simp [he, hr]

theorem afterLoop_no_query (env : Env) (j n : Nat) (c : Coords) (ret : Int) :
    Event.query j n c ret ∉ (afterLoop env).trace := by
  unfold afterLoop
  split_ifs <;> simp

/-- What surrounds a `cencalvm_query` call in the trace of the loop: the
event carries the value the library returned; no `cencalvm_close` and no
`cencalvm_destroyQuery` comes before it; what comes after it is fixed by
the return value and the error status. -/
theorem loop_query (env : Env) (fuel : Nat) :
    ∀ (k : Nat) (f : FILE) (v : Coords) (pre post : List Event) (j n : Nat) (c : Coords)
      (ret : Int),
      (loop env fuel k f v).trace = pre ++ Event.query j n c ret :: post →
      ret = (env.query j).ret ∧
      (∀ e ∈ pre, e ≠ Event.close ∧ e ≠ Event.destroyQuery) ∧
      (ret ≠ 0 → (env.query j).status = 2 →
        post = [Event.errorMessage, Event.stderr Msg.libMessage, Event.errorStatus 2] ∧
        (loop env fuel k f v).code = some 1) ∧
      (ret ≠ 0 → (env.query j).status ≠ 2 →
        ∃ r rest, post = [Event.errorMessage, Event.stderr Msg.libMessage,
          Event.errorStatus (env.query j).status, Event.resetStatus,
          Event.outLine c (env.query j).pVals, Event.fscanf r] ++ rest) ∧
      (ret = 0 →
        ∃ r rest, post = [Event.outLine c (env.query j).pVals, Event.fscanf r] ++ rest) := by
  induction fuel with
  | zero =>
    intro k f v pre post j n c ret h
    by_cases he : f.eof = true
    · rw [loop_eof env 0 k f v he] at h
      have hm : Event.query j n c ret ∈ (afterLoop env).trace := by
        have : Event.query j n c ret ∈ [Event.feof true] ++ (afterLoop env).trace := by
          rw [← Run.after_trace, h]; simp
        simpa using this
      exact absurd hm (afterLoop_no_query env j n c ret)
    · rw [loop_zero env k f v (by simpa using he)] at h
      simp at h
  | succ fuel ih =>
    intro k f v pre post j n c ret h
    by_cases he : f.eof = true
    · rw [loop_eof env _ k f v he] at h
      have hm : Event.query j n c ret ∈ (afterLoop env).trace := by
        have : Event.query j n c ret ∈ [Event.feof true] ++ (afterLoop env).trace := by
          rw [← Run.after_trace, h]; simp
        simpa using this
      exact absurd hm (afterLoop_no_query env j n c ret)
    have he' : f.eof = false := by simpa using he
    by_cases hr : (env.query k).ret = 0
    · -- the query succeeds
      rw [loop_ok env fuel k f v he' hr] at h ⊢
      rw [Run.after_trace] at h
      obtain ⟨pre1, hp1, h1⟩ := split_of_not_mem [Event.feof false] _ pre post _ h (by simp)
      cases pre1 with
      | nil =>
        simp only [List.nil_append, List.cons.injEq, Event.query.injEq] at h1
        obtain ⟨⟨hj, hn, hc, hret⟩, hpost⟩ := h1
        subst hj hn hc hret
        refine ⟨hr.symm, ?_, ?_, ?_, ?_⟩
        · intro e hmem
          rw [hp1] at hmem
          simp at hmem
          subst hmem
          simp
        · intro h0; exact absurd rfl h0
        · intro h0; exact absurd rfl h0
        · intro _
          exact ⟨_, _, hpost.symm⟩
      | cons x pre2 =>
        simp only [List.cons_append, List.cons.injEq] at h1
        obtain ⟨hx, h2⟩ := h1
        obtain ⟨pre3, hp3, h3⟩ := split_of_not_mem
          [Event.outLine v (env.query k).pVals, Event.fscanf (fscanf3 f v).1] _ pre2 post _ h2
          (by simp)
        obtain ⟨i1, i2, i3, i4, i5⟩ := ih _ _ _ pre3 post j n c ret h3
        refine ⟨i1, ?_, ?_, i4, i5⟩
        · intro e hmem
          rw [hp1, hp3, ← hx] at hmem
          simp at hmem
          rcases hmem with hmem | hmem | hmem | hmem | hmem
          · subst hmem; simp
          · subst hmem; simp
          · subst hmem; simp
          · subst hmem; simp
          · exact i2 e hmem
        · intro a1 a2
          exact ⟨(i3 a1 a2).1, by rw [Run.after_code]; exact (i3 a1 a2).2⟩
    by_cases hs : (env.query k).status = 2
    · -- fatal error
      rw [loop_fatal env fuel k f v he' hr hs] at h ⊢
      have h' : [Event.feof false] ++ [Event.query k numVals v (env.query k).ret,
          Event.errorMessage, Event.stderr Msg.libMessage, Event.errorStatus 2] =
          pre ++ Event.query j n c ret :: post := h
      obtain ⟨pre1, hp1, h1⟩ := split_of_not_mem [Event.feof false] _ pre post _ h' (by simp)
      cases pre1 with
      | nil =>
        simp only [List.nil_append, List.cons.injEq, Event.query.injEq] at h1
        obtain ⟨⟨hj, hn, hc, hret⟩, hpost⟩ := h1
        subst hj hn hc hret
        refine ⟨rfl, ?_, ?_, ?_, ?_⟩
        · intro e hmem
          rw [hp1] at hmem
          simp at hmem
          subst hmem
          simp
        · intro _ _
          exact ⟨hpost.symm, rfl⟩
        · intro _ h0; exact absurd hs h0
        · intro h0; exact absurd h0 hr
      | cons x pre2 =>
        simp only [List.cons_append, List.cons.injEq] at h1
        have hm : Event.query j n c ret ∈
            [Event.errorMessage, Event.stderr Msg.libMessage, Event.errorStatus 2] := by
          rw [h1.2]; simp
        simp at hm
    · -- error that is not fatal
      rw [loop_nonfatal env fuel k f v he' hr hs] at h ⊢
      rw [Run.after_trace] at h
      obtain ⟨pre1, hp1, h1⟩ := split_of_not_mem [Event.feof false] _ pre post _ h (by simp)
      cases pre1 with
      | nil =>
        simp only [List.nil_append, List.cons.injEq, Event.query.injEq] at h1
        obtain ⟨⟨hj, hn, hc, hret⟩, hpost⟩ := h1
        subst hj hn hc hret
        refine ⟨rfl, ?_, ?_, ?_, ?_⟩
        · intro e hmem
          rw [hp1] at hmem
          simp at hmem
          subst hmem
          simp
        · intro _ h0; exact absurd h0 hs
        · intro _ _
          exact ⟨_, _, hpost.symm⟩
        · intro h0; exact absurd h0 hr
      | cons x pre2 =>
        simp only [List.cons_append, List.cons.injEq] at h1
        obtain ⟨hx, h2⟩ := h1
        obtain ⟨pre3, hp3, h3⟩ := split_of_not_mem
          [Event.errorMessage, Event.stderr Msg.libMessage,
            Event.errorStatus (env.query k).status, Event.resetStatus,
            Event.outLine v (env.query k).pVals, Event.fscanf (fscanf3 f v).1] _ pre2 post _ h2
          (by simp)
        obtain ⟨i1, i2, i3, i4, i5⟩ := ih _ _ _ pre3 post j n c ret h3
        refine ⟨i1, ?_, ?_, i4, i5⟩
        · intro e hmem
          rw [hp1, hp3, ← hx] at hmem
          simp at hmem
          rcases hmem with hmem | hmem | hmem | hmem | hmem | hmem | hmem | hmem | hmem
          · subst hmem; simp
          · subst hmem; simp
          · subst hmem; simp
          · subst hmem; simp
          · subst hmem; simp
          · subst hmem; simp
          · subst hmem; simp
          · subst hmem; simp
          · exact i2 e hmem
        · intro a1 a2
          exact ⟨(i3 a1 a2).1, by rw [Run.after_code]; exact (i3 a1 a2).2⟩

theorem afterLoop_no_feof (env : Env) (b : Bool) : Event.feof b ∉ (afterLoop env).trace := by
  unfold afterLoop
  split_ifs <;> simp

/-- What follows the loop test that finds the end of file: the code after
the loop. -/
theorem loop_feof_true (env : Env) (fuel : Nat) :
    ∀ (k : Nat) (f : FILE) (v : Coords) (pre post : List Event),
      (loop env fuel k f v).trace = pre ++ Event.feof true :: post →
      post = (afterLoop env).trace ∧ (loop env fuel k f v).code = (afterLoop env).code := by
  induction fuel with
  | zero =>
    intro k f v pre post h
    by_cases he : f.eof = true
    · rw [loop_eof env 0 k f v he] at h ⊢
      have h' : Event.feof true :: (afterLoop env).trace = pre ++ Event.feof true :: post := h
      cases pre with
      | nil =>
        simp only [List.nil_append, List.cons.injEq, true_and] at h'
        exact ⟨h'.symm, rfl⟩
      | cons x pre =>
        simp only [List.cons_append, List.cons.injEq] at h'
        exact absurd (by rw [h'.2]; simp) (afterLoop_no_feof env true)
    · rw [loop_zero env k f v (by simpa using he)] at h
      simp at h
  | succ fuel ih =>
    intro k f v pre post h
    by_cases he : f.eof = true
    · rw [loop_eof env _ k f v he] at h ⊢
      have h' : Event.feof true :: (afterLoop env).trace = pre ++ Event.feof true :: post := h
      cases pre with
      | nil =>
        simp only [List.nil_append, List.cons.injEq, true_and] at h'
        exact ⟨h'.symm, rfl⟩
      | cons x pre =>
        simp only [List.cons_append, List.cons.injEq] at h'
        exact absurd (by rw [h'.2]; simp) (afterLoop_no_feof env true)
    have he' : f.eof = false := by simpa using he
    by_cases hr : (env.query k).ret = 0
    · rw [loop_ok env fuel k f v he' hr] at h ⊢
      rw [Run.after_trace] at h
      obtain ⟨pre1, _, h1⟩ := split_of_not_mem _ _ pre post _ h (by simp)
      exact ih _ _ _ pre1 post h1
    by_cases hs : (env.query k).status = 2
    · rw [loop_fatal env fuel k f v he' hr hs] at h
      have hm : Event.feof true ∈ pre ++ Event.feof true :: post := by simp
      rw [← h] at hm
      simp at hm
    · rw [loop_nonfatal env fuel k f v he' hr hs] at h ⊢
      rw [Run.after_trace] at h
      obtain ⟨pre1, _, h1⟩ := split_of_not_mem _ _ pre post _ h (by simp)
      exact ih _ _ _ pre1 post h1

/-- No file is opened inside the loop or after it. -/
theorem loop_no_fopen (env : Env) (fuel : Nat) :
    ∀ (k : Nat) (f : FILE) (v : Coords) (n : CStr) (w ok : Bool),
      Event.fopen n w ok ∉ (loop env fuel k f v).trace := by
  induction fuel with
  | zero =>
    intro k f v n w ok
    by_cases he : f.eof = true
    · rw [loop_eof env 0 k f v he]
      unfold afterLoop
      split_ifs <;> simp [Run.after]
    · rw [loop_zero env k f v (by simpa using he)]
      simp
  | succ fuel ih =>
    intro k f v n w ok
    by_cases he : f.eof = true
    · rw [loop_eof env _ k f v he]
      unfold afterLoop
      split_ifs <;> simp [Run.after]
    have he' : f.eof = false := by simpa using he
    by_cases hr : (env.query k).ret = 0
    · rw [loop_ok env fuel k f v he' hr, Run.after_trace]
      simp [ih]
    by_cases hs : (env.query k).status = 2
    · rw [loop_fatal env fuel k f v he' hr hs]
      simp
    · rw [loop_nonfatal env fuel k f v he' hr hs, Run.after_trace]
      simp [ih]

/-- In every run of `main`, what surrounds a `cencalvm_query` call in the
trace: `loop_query` carried over to `main`. -/
theorem main_query (env : Env) (uninit : Bufs) (argv : List CStr) (fuel : Nat)
    (pre post : List Event) (j n : Nat) (c : Coords) (ret : Int)
    (h : (main env uninit argv fuel).trace = pre ++ Event.query j n c ret :: post) :
    ret = (env.query j).ret ∧
    (∀ e ∈ pre, e ≠ Event.close ∧ e ≠ Event.destroyQuery) ∧
    Event.dbOpen 0 ∈ pre ∧
    (ret ≠ 0 → (env.query j).status = 2 →
      post = [Event.errorMessage, Event.stderr Msg.libMessage, Event.errorStatus 2] ∧
      (main env uninit argv fuel).code = some 1) ∧
    (ret ≠ 0 → (env.query j).status ≠ 2 →
      ∃ r rest, post = [Event.errorMessage, Event.stderr Msg.libMessage,
        Event.errorStatus (env.query j).status, Event.resetStatus,
        Event.outLine c (env.query j).pVals, Event.fscanf r] ++ rest) ∧
    (ret = 0 →
      ∃ r rest, post = [Event.outLine c (env.query j).pVals, Event.fscanf r] ++ rest) := by
  rcases main_cases env uninit argv fuel with ⟨c0, pre0, hm, hpre, _⟩ | ⟨pre0, f, v, hm, hpre, hdb, _⟩
  · rw [hm] at h
    have : Event.query j n c ret ∈ pre0 := by
      simp only at h
      rw [h]; simp
    have := hpre _ this
    simp [preEvent] at this
  · rw [hm] at h ⊢
    rw [Run.after_trace] at h
    have hq : Event.query j n c ret ∉ pre0 := by
      intro hmem
      have := hpre _ hmem
      simp [preEvent] at this
    obtain ⟨pre1, hp1, h1⟩ := split_of_not_mem _ _ pre post _ h hq
    obtain ⟨i1, i2, i3, i4, i5⟩ := loop_query env fuel 0 f v pre1 post j n c ret h1
    refine ⟨i1, ?_, ?_, ?_, i4, i5⟩
    · intro e hmem
      rw [hp1] at hmem
      rcases List.mem_append.mp hmem with hmem | hmem
      · have := hpre e hmem
        constructor <;> (intro he; subst he; simp [preEvent] at this)
      · exact i2 e hmem
    · rw [hp1]
      exact List.mem_append.mpr (Or.inl hdb)
    · intro a1 a2
      exact ⟨(i3 a1 a2).1, by rw [Run.after_code]; exact (i3 a1 a2).2⟩

/-- More fuel does not change a run that has ended. -/
theorem loop_more_fuel (env : Env) (fuel : Nat) :
    ∀ (k : Nat) (f : FILE) (v : Coords) (c : Int),
      (loop env fuel k f v).code = some c →
      ∀ extra, loop env (fuel + extra) k f v = loop env fuel k f v := by
  induction fuel with
  | zero =>
    intro k f v c hc extra
    by_cases he : f.eof = true
    · rw [loop_eof env _ k f v he, loop_eof env _ k f v he]
    · rw [loop_zero env k f v (by simpa using he)] at hc
      cases hc
  | succ fuel ih =>
    intro k f v c hc extra
    by_cases he : f.eof = true
    · rw [loop_eof env _ k f v he, loop_eof env _ k f v he]
    have he' : f.eof = false := by simpa using he
    have hadd : fuel + 1 + extra = (fuel + extra) + 1 := by omega
    rw [hadd]
    by_cases hr : (env.query k).ret = 0
    · rw [loop_ok env fuel k f v he' hr] at hc ⊢
      rw [loop_ok env (fuel + extra) k f v he' hr]
      rw [Run.after_code] at hc
      rw [ih _ _ _ c hc extra]
    by_cases hs : (env.query k).status = 2
    · rw [loop_fatal env fuel k f v he' hr hs, loop_fatal env (fuel + extra) k f v he' hr hs]
    · rw [loop_nonfatal env fuel k f v he' hr hs] at hc ⊢
      rw [loop_nonfatal env (fuel + extra) k f v he' hr hs]
      rw [Run.after_code] at hc
      rw [ih _ _ _ c hc extra]

theorem mainBody_more_fuel (env : Env) (b : Bufs) (fuel : Nat) (c : Int)
    (hc : (mainBody env b fuel).code = some c) (extra : Nat) :
    mainBody env b (fuel + extra) = mainBody env b fuel := by
  unfold mainBody at hc ⊢
  by_cases h1 : env.createQuery = false
  · rw [if_pos h1, if_pos h1]
  rw [if_neg h1] at hc ⊢
  rw [if_neg h1]
  by_cases h2 : env.errorHandler = false
  · rw [if_pos h2, if_pos h2]
  rw [if_neg h2] at hc ⊢
  rw [if_neg h2]
  rw [Run.after_code] at hc
  congr 1
  by_cases h3 : env.filenameRet ≠ 0
  · rw [if_pos h3, if_pos h3]
  rw [if_neg h3] at hc ⊢
  rw [if_neg h3]
  by_cases h4 : env.openRet ≠ 0
  · rw [if_pos h4, if_pos h4]
  rw [if_neg h4] at hc ⊢
  rw [if_neg h4]
  rw [Run.after_code] at hc
  congr 1
  generalize env.fileIn = fi at hc ⊢
  cases fi with
  | none => rfl
  | some text =>
    simp only [] at hc ⊢
    by_cases h5 : env.fileOut = false
    · rw [if_pos h5, if_pos h5]
    rw [if_neg h5] at hc ⊢
    rw [if_neg h5]
    rw [Run.after_code] at hc
    rw [loop_more_fuel env fuel _ _ _ c hc extra]

/-- A run of `main` that has ended is the same for every larger bound on
the iterations of the loop. -/
theorem main_more_fuel (env : Env) (uninit : Bufs) (argv : List CStr) (fuel : Nat) (c : Int)
    (hc : (main env uninit argv fuel).code = some c) (extra : Nat) :
    main env uninit argv (fuel + extra) = main env uninit argv fuel := by
  unfold main at hc ⊢
  generalize parseArgs env.permute uninit argv = po at hc ⊢
  cases po with
  | exited code err => rfl
  | returned b err =>
    simp only [Run.after_code] at hc ⊢
    rw [mainBody_more_fuel env b fuel c hc extra]

/-! ### The claims about main -/

/-- C3: in every run of main, a query that returns non-zero with the
error-handler status 2 is followed by the fetch and print of the error
message and the status check only, and main returns 1: no output line is
written for that record, no further location is read, no further query is
made, and the output lines are those written before the query. -/
theorem C3_fatal_error_returns_at_once (env : Env) (uninit : Bufs) (argv : List CStr)
    (fuel : Nat) (pre post : List Event) (k n : Nat) (c : Coords) (ret : Int)
    (h : (main env uninit argv fuel).trace = pre ++ Event.query k n c ret :: post)
    (hret : ret ≠ 0) (hst : (env.query k).status = 2) :
    (main env uninit argv fuel).code = some 1 ∧
    post = [Event.errorMessage, Event.stderr Msg.libMessage, Event.errorStatus 2] ∧
    outLines (main env uninit argv fuel).trace = outLines pre ∧
    queryCount (main env uninit argv fuel).trace = queryCount pre + 1 := by
  obtain ⟨_, _, _, i3, _, _⟩ := main_query env uninit argv fuel pre post k n c ret h
  obtain ⟨hpost, hcode⟩ := i3 hret hst
  refine ⟨hcode, hpost, ?_, ?_⟩
  · rw [h, hpost]
    simp [outLines, List.filterMap_append]
  · rw [h, hpost]
    simp [queryCount, List.filter_append]

/-- Witness of C3: the second of three records gets a fatal error. -/
theorem C3_witness :
    (main (envFatal threeLines) emptyBufs argvOK 5).trace =
      (main (envFatal threeLines) emptyBufs argvOK 5).trace.take 12 ++
        Event.query 1 8 ⟨['4'], ['5'], ['6']⟩ 1 ::
        [Event.errorMessage, Event.stderr Msg.libMessage, Event.errorStatus 2] ∧
    (main (envFatal threeLines) emptyBufs argvOK 5).code = some 1 ∧
    outLines (main (envFatal threeLines) emptyBufs argvOK 5).trace =
      [(⟨['1'], ['2'], ['3']⟩, [])] := by
  have h0 : (main (envFatal threeLines) emptyBufs argvOK 5).trace =
      (main (envFatal threeLines) emptyBufs argvOK 5).trace.take 12 ++
        Event.query 1 8 ⟨['4'], ['5'], ['6']⟩ 1 ::
        [Event.errorMessage, Event.stderr Msg.libMessage, Event.errorStatus 2] := by decide
  have h := C3_fatal_error_returns_at_once (envFatal threeLines) emptyBufs argvOK 5 _ _ 1 8
    ⟨['4'], ['5'], ['6']⟩ 1 h0 (by decide) (by decide)
  exact ⟨h0, h.1, by decide⟩

/-- C2 (amended): in every run of main, a query that returns non-zero while
the error-handler status is not 2 is followed by: the fetch of the error
message and its print on stderr, the status check, the reset of the status,
the output line of that record (its coordinates and the contents of pVals),
and the read of the next location. -/
theorem C2_nonfatal_error_line_written (env : Env) (uninit : Bufs) (argv : List CStr)
    (fuel : Nat) (pre post : List Event) (k n : Nat) (c : Coords) (ret : Int)
    (h : (main env uninit argv fuel).trace = pre ++ Event.query k n c ret :: post)
    (hret : ret ≠ 0) (hst : (env.query k).status ≠ 2) :
    ∃ r rest, post = [Event.errorMessage, Event.stderr Msg.libMessage,
      Event.errorStatus (env.query k).status, Event.resetStatus,
      Event.outLine c (env.query k).pVals, Event.fscanf r] ++ rest := by
  obtain ⟨_, _, _, _, i4, _⟩ := main_query env uninit argv fuel pre post k n c ret h
  exact i4 hret hst

/-- Witness of C2 (amended): the only record gets an error that is not fatal. -/
theorem C2_witness :
    (main (envWarn "1 2 3\n".toList) emptyBufs argvOK 5).trace =
      (main (envWarn "1 2 3\n".toList) emptyBufs argvOK 5).trace.take 8 ++
        Event.query 0 8 ⟨['1'], ['2'], ['3']⟩ 1 ::
        (main (envWarn "1 2 3\n".toList) emptyBufs argvOK 5).trace.drop 9 ∧
    ∃ r rest, (main (envWarn "1 2 3\n".toList) emptyBufs argvOK 5).trace.drop 9 =
      [Event.errorMessage, Event.stderr Msg.libMessage, Event.errorStatus 1,
        Event.resetStatus, Event.outLine ⟨['1'], ['2'], ['3']⟩ [], Event.fscanf r] ++ rest :=
  ⟨by decide,
    C2_nonfatal_error_line_written (envWarn "1 2 3\n".toList) emptyBufs argvOK 5
      ((main (envWarn "1 2 3\n".toList) emptyBufs argvOK 5).trace.take 8)
      ((main (envWarn "1 2 3\n".toList) emptyBufs argvOK 5).trace.drop 9) 0 8
      ⟨['1'], ['2'], ['3']⟩ 1 (by decide) (by decide) (by decide)⟩

/-- Counterexample to C2 as stated: the query of the only record returns 1
with status 1 (not fatal), and an output line is written for that record. -/
theorem C2_counterexample :
    ((envWarn "1 2 3\n".toList).query 0).ret ≠ 0 ∧
    ((envWarn "1 2 3\n".toList).query 0).status ≠ 2 ∧
    queryCount (main (envWarn "1 2 3\n".toList) emptyBufs argvOK 5).trace = 1 ∧
    outLines (main (envWarn "1 2 3\n".toList) emptyBufs argvOK 5).trace =
      [(⟨['1'], ['2'], ['3']⟩, [])] ∧
    (main (envWarn "1 2 3\n".toList) emptyBufs argvOK 5).code = some 0 := by
  decide

/-- C8 (amended): in every run of main in which the loop test finds the end
of file, the calls that follow are cencalvm_close, the two fclose and the
status check; cencalvm_destroyQuery follows exactly when that status is 0
(exit code 0), otherwise the error message is printed and main returns 1
with the query not destroyed. -/
theorem C8_close_then_destroy_if_no_error (env : Env) (uninit : Bufs) (argv : List CStr)
    (fuel : Nat) (pre post : List Event)
    (h : (main env uninit argv fuel).trace = pre ++ Event.feof true :: post) :
    post = [Event.close, Event.fclose false, Event.fclose true,
        Event.errorStatus env.finalStatus] ++
      (if env.finalStatus = 0 then [Event.destroyQuery]
        else [Event.errorMessage, Event.stderr Msg.libMessage]) ∧
    Event.close ∈ post ∧
    (Event.destroyQuery ∈ post ↔ env.finalStatus = 0) ∧
    (main env uninit argv fuel).code = some (if env.finalStatus = 0 then 0 else 1) := by
  have key : post = (afterLoop env).trace ∧
      (main env uninit argv fuel).code = (afterLoop env).code := by
    rcases main_cases env uninit argv fuel with
      ⟨c0, pre0, hm, hpre, _⟩ | ⟨pre0, f, v, hm, hpre, _, _⟩
    · rw [hm] at h
      have : Event.feof true ∈ pre0 := by
        simp only at h
        rw [h]; simp
      have := hpre _ this
      simp [preEvent] at this
    · rw [hm] at h ⊢
      rw [Run.after_trace] at h
      have hq : Event.feof true ∉ pre0 := by
        intro hmem
        have := hpre _ hmem
        simp [preEvent] at this
      obtain ⟨pre1, _, h1⟩ := split_of_not_mem _ _ pre post _ h hq
      exact loop_feof_true env fuel 0 f v pre1 post h1
  obtain ⟨hpost, hcode⟩ := key
  rw [hcode, hpost]
  unfold afterLoop
  by_cases hf : env.finalStatus = 0
  · simp [hf]
  · simp [hf]

/-- Witness of C8 (amended): a run over one record with final status 0. -/
theorem C8_witness :
    (main (envOK false "1 2 3\n".toList) emptyBufs argvOK 5).trace =
      (main (envOK false "1 2 3\n".toList) emptyBufs argvOK 5).trace.take 11 ++
        Event.feof true ::
        (main (envOK false "1 2 3\n".toList) emptyBufs argvOK 5).trace.drop 12 ∧
    Event.destroyQuery ∈ (main (envOK false "1 2 3\n".toList) emptyBufs argvOK 5).trace.drop 12 :=
  ⟨by decide,
    (C8_close_then_destroy_if_no_error (envOK false "1 2 3\n".toList) emptyBufs argvOK 5
      ((main (envOK false "1 2 3\n".toList) emptyBufs argvOK 5).trace.take 11)
      ((main (envOK false "1 2 3\n".toList) emptyBufs argvOK 5).trace.drop 12)
      (by decide)).2.2.1.mpr (by decide)⟩

/-- Counterexample to C8 as stated: the loop ends at the end of the input,
the status after the loop is 1, and cencalvm_close is called but
cencalvm_destroyQuery is not. -/
theorem C8_counterexample :
    Event.feof true ∈ (main (envFinalErr "1 2 3\n".toList) emptyBufs argvOK 5).trace ∧
    Event.close ∈ (main (envFinalErr "1 2 3\n".toList) emptyBufs argvOK 5).trace ∧
    Event.destroyQuery ∉ (main (envFinalErr "1 2 3\n".toList) emptyBufs argvOK 5).trace ∧
    (main (envFinalErr "1 2 3\n".toList) emptyBufs argvOK 5).code = some 1 := by
  decide

/-- C9: every run of main in which an fopen failed, or in which a query
returned non-zero with the error-handler status 2, returns 1; its trace
holds a cencalvm_open that returned 0, no cencalvm_close and no
cencalvm_destroyQuery. -/
theorem C9_early_return_skips_cleanup (env : Env) (uninit : Bufs) (argv : List CStr)
    (fuel : Nat)
    (h : (∃ name w, Event.fopen name w false ∈ (main env uninit argv fuel).trace) ∨
      (∃ k n c ret, Event.query k n c ret ∈ (main env uninit argv fuel).trace ∧
        ret ≠ 0 ∧ (env.query k).status = 2)) :
    (main env uninit argv fuel).code = some 1 ∧
    Event.dbOpen 0 ∈ (main env uninit argv fuel).trace ∧
    Event.close ∉ (main env uninit argv fuel).trace ∧
    Event.destroyQuery ∉ (main env uninit argv fuel).trace := by
  rcases h with ⟨name, w, hfo⟩ | ⟨k, n, c, ret, hq, hret, hst⟩
  · rcases main_cases env uninit argv fuel with
      ⟨c0, pre0, hm, hpre, hf⟩ | ⟨pre0, f, v, hm, hpre, _, hnf⟩
    · rw [hm] at hfo ⊢
      obtain ⟨hc, hdb⟩ := hf ⟨name, w, hfo⟩
      refine ⟨by rw [hc], hdb, ?_, ?_⟩
      · intro hmem
        have := hpre _ hmem
        simp [preEvent] at this
      · intro hmem
        have := hpre _ hmem
        simp [preEvent] at this
    · rw [hm, Run.after_trace] at hfo
      rcases List.mem_append.mp hfo with hfo | hfo
      · exact absurd hfo (hnf name w)
      · exact absurd hfo (loop_no_fopen env fuel 0 f v name w false)
  · obtain ⟨pre, post, hsplit⟩ := List.append_of_mem hq
    obtain ⟨_, i2, hdb, i3, _, _⟩ := main_query env uninit argv fuel pre post k n c ret hsplit
    obtain ⟨hpost, hcode⟩ := i3 hret hst
    refine ⟨hcode, ?_, ?_, ?_⟩
    · rw [hsplit]
      exact List.mem_append.mpr (Or.inl hdb)
    · rw [hsplit, hpost]
      intro hmem
      rcases List.mem_append.mp hmem with hmem | hmem
      · exact (i2 _ hmem).1 rfl
      · simp at hmem
    · rw [hsplit, hpost]
      intro hmem
      rcases List.mem_append.mp hmem with hmem | hmem
      · exact (i2 _ hmem).2 rfl
      · simp at hmem

/-- Witness of C9: the input file cannot be opened; the output file cannot
be opened; the second query reports a fatal error. -/
theorem C9_witness :
    (Event.fopen "in".toList false false ∈ (main envNoInput emptyBufs argvOK 5).trace ∧
      (main envNoInput emptyBufs argvOK 5).code = some 1 ∧
      Event.dbOpen 0 ∈ (main envNoInput emptyBufs argvOK 5).trace ∧
      Event.close ∉ (main envNoInput emptyBufs argvOK 5).trace ∧
      Event.destroyQuery ∉ (main envNoInput emptyBufs argvOK 5).trace) ∧
    (Event.fopen "out".toList true false ∈ (main envNoOutput emptyBufs argvOK 5).trace ∧
      (main envNoOutput emptyBufs argvOK 5).code = some 1 ∧
      Event.dbOpen 0 ∈ (main envNoOutput emptyBufs argvOK 5).trace ∧
      Event.close ∉ (main envNoOutput emptyBufs argvOK 5).trace ∧
      Event.destroyQuery ∉ (main envNoOutput emptyBufs argvOK 5).trace) ∧
    (Event.query 1 8 ⟨['4'], ['5'], ['6']⟩ 1 ∈
        (main (envFatal threeLines) emptyBufs argvOK 5).trace ∧
      (main (envFatal threeLines) emptyBufs argvOK 5).code = some 1 ∧
      Event.dbOpen 0 ∈ (main (envFatal threeLines) emptyBufs argvOK 5).trace ∧
      Event.close ∉ (main (envFatal threeLines) emptyBufs argvOK 5).trace ∧
      Event.destroyQuery ∉ (main (envFatal threeLines) emptyBufs argvOK 5).trace) :=
  ⟨⟨by decide,
      C9_early_return_skips_cleanup envNoInput emptyBufs argvOK 5
        (Or.inl ⟨"in".toList, false, by decide⟩)⟩,
    ⟨by decide,
      C9_early_return_skips_cleanup envNoOutput emptyBufs argvOK 5
        (Or.inl ⟨"out".toList, true, by decide⟩)⟩,
    ⟨by decide,
      C9_early_return_skips_cleanup (envFatal threeLines) emptyBufs argvOK 5
        (Or.inr ⟨1, 8, ⟨['4'], ['5'], ['6']⟩, 1, by decide, by decide, by decide⟩)⟩⟩

/-- A run in the environment `envOK` on the command line `argvOK` reaches
the loop after the first `fscanf`. -/
theorem main_envOK (permute : Bool) (text : List Char) (fuel : Nat) :
    main (envOK permute text) emptyBufs argvOK fuel =
      Run.after [Event.createQuery true, Event.errorHandler true,
        Event.filename "db".toList 0, Event.dbOpen 0,
        Event.fopen "in".toList false true, Event.fopen "out".toList true true,
        Event.fscanf (fscanf3 ⟨text, false⟩ zeroCoords).1]
        (loop (envOK permute text) fuel 0 (fscanf3 ⟨text, false⟩ zeroCoords).2.1
          (fscanf3 ⟨text, false⟩ zeroCoords).2.2) := by
  cases permute <;> rfl

/-- C1 at the failing input: the input file holds the single triple 1 2 3
with no newline after it, every library call succeeds; main makes no query
and writes no output line, and returns 0.  With a newline after the triple
there is one query and one line.  Of two triples with no newline after the
second, only the first is queried and written. -/
theorem C1_last_triple_without_newline_dropped :
    (∀ permute fuel,
      (main (envOK permute "1 2 3".toList) emptyBufs argvOK fuel).code = some 0 ∧
      queryCount (main (envOK permute "1 2 3".toList) emptyBufs argvOK fuel).trace = 0 ∧
      outLines (main (envOK permute "1 2 3".toList) emptyBufs argvOK fuel).trace = []) ∧
    (queryCount (main (envOK false "1 2 3\n".toList) emptyBufs argvOK 5).trace = 1 ∧
      outLines (main (envOK false "1 2 3\n".toList) emptyBufs argvOK 5).trace =
        [(⟨['1'], ['2'], ['3']⟩, [])]) ∧
    ((main (envOK false "1 2 3\n4 5 6".toList) emptyBufs argvOK 5).code = some 0 ∧
      queryCount (main (envOK false "1 2 3\n4 5 6".toList) emptyBufs argvOK 5).trace = 1 ∧
      outLines (main (envOK false "1 2 3\n4 5 6".toList) emptyBufs argvOK 5).trace =
        [(⟨['1'], ['2'], ['3']⟩, [])]) := by
  refine ⟨?_, by decide, by decide⟩
  intro permute fuel
  rw [main_envOK]
  have hf : fscanf3 ⟨"1 2 3".toList, false⟩ zeroCoords =
      (3, ⟨[], true⟩, ⟨['1'], ['2'], ['3']⟩) := by decide
  rw [hf]
  simp only []
  rw [loop_eof _ _ _ _ _ rfl]
  cases permute <;> decide

/-- Supplement to C10: an input that ends with an incomplete triple does
end the loop; the incomplete triple is not queried. -/
theorem incomplete_triple_terminates :
    (main (envOK false "1 2 3\n4 5\n".toList) emptyBufs argvOK 5).code = some 0 ∧
    queryCoords (main (envOK false "1 2 3\n4 5\n".toList) emptyBufs argvOK 5).trace =
      [⟨['1'], ['2'], ['3']⟩] := by
  decide

/-- C10 at the failing input: the input file starts with a header line,
which is not a number; every library call succeeds.  Whatever the bound on
the number of iterations, the loop has not ended when the bound is reached
and has made that many queries: it never terminates. -/
theorem C10_unparsable_token_never_terminates :
    ∀ permute fuel,
      (main (envOK permute headerText) emptyBufs argvOK fuel).code = none ∧
      queryCount (main (envOK permute headerText) emptyBufs argvOK fuel).trace = fuel := by
  intro permute fuel
  rw [main_envOK]
  have hf : ∀ v, fscanf3 ⟨headerText, false⟩ v = (0, ⟨headerText, false⟩, v) := by
    intro v; rfl
  rw [hf]
  simp only []
  have key : ∀ fuel k, (loop (envOK permute headerText) fuel k ⟨headerText, false⟩
        zeroCoords).code = none ∧
      queryCount (loop (envOK permute headerText) fuel k ⟨headerText, false⟩
        zeroCoords).trace = fuel := by
    intro fuel
    induction fuel with
    | zero =>
      intro k
      rw [loop_zero _ _ _ _ rfl]
      exact ⟨rfl, rfl⟩
    | succ fuel ih =>
      intro k
      rw [loop_ok _ _ _ _ _ rfl rfl, hf]
      simp only [Run.after_code, Run.after_trace]
      refine ⟨(ih (k + 1)).1, ?_⟩
      have := (ih (k + 1)).2
      simp only [queryCount, List.filter_append, List.length_append] at this ⊢
      rw [this]
      simp [List.filter]
      omega
  obtain ⟨h1, h2⟩ := key fuel 0
  refine ⟨by rw [Run.after_code]; exact h1, ?_⟩
  rw [Run.after_trace]
  simp only [queryCount, List.filter_append, List.length_append] at h2 ⊢
  rw [h2]
  simp [List.filter]

/-! ### Well-formed input: every location is queried and written -/

theorem isSpace_not_digit (c : Char) (h : isSpace c = true) : c.isDigit = false := by
  simp only [isSpace, Bool.or_eq_true, decide_eq_true_eq] at h
  rcases h with h | h | h | h | h | h <;> subst h <;> rfl

/-- A non-empty string of decimal digits is a number. -/
theorem isNum_digits (d : Char) (ds : List Char) (hd : d.isDigit = true)
    (hds : ∀ x ∈ ds, x.isDigit = true) : IsNum (d :: ds) := by
  have hdsp : isSpace d = false := by
    cases h : isSpace d with
    | false => rfl
    | true => rw [isSpace_not_digit d h] at hd; cases hd
  refine ⟨⟨d, ds, rfl, hdsp⟩, ?_⟩
  intro c rest hc
  have hcd := isSpace_not_digit c hc
  have hall : ∀ x ∈ d :: ds, x.isDigit = true := by
    intro x hx
    rcases List.mem_cons.mp hx with hx | hx
    · rw [hx]; exact hd
    · exact hds x hx
  have hsign : lexSign ((d :: ds) ++ c :: rest) = ([], (d :: ds) ++ c :: rest) := by
    have h1 : d ≠ '+' := by rintro rfl; cases hd
    have h2 : d ≠ '-' := by rintro rfl; cases hd
    simp only [List.cons_append]
    unfold lexSign
    split
    · rename_i heq; simp only [List.cons.injEq] at heq; exact absurd heq.1 h1
    · rename_i heq; simp only [List.cons.injEq] at heq; exact absurd heq.1 h2
    · rfl
  have htake : ((d :: ds) ++ c :: rest).takeWhile Char.isDigit = d :: ds := by
    rw [List.takeWhile_append_of_pos hall]
    simp [List.takeWhile, hcd]
  have hdrop : ((d :: ds) ++ c :: rest).dropWhile Char.isDigit = c :: rest := by
    rw [List.dropWhile_append_of_pos hall]
    simp [List.dropWhile, hcd]
  have hdot : c ≠ '.' := by rintro rfl; cases hc
  have he1 : c ≠ 'e' := by rintro rfl; cases hc
  have he2 : c ≠ 'E' := by rintro rfl; cases hc
  unfold lexDouble
  have hfr : lexFraction (c :: rest) = ([], c :: rest) := by
    unfold lexFraction
    split
    · rename_i heq; simp only [List.cons.injEq] at heq; exact absurd heq.1 hdot
    · rfl
  simp only [hsign, htake, hdrop, hfr]
  simp [he1, he2]

theorem dropWhile_space_num (ws t more : List Char) (hws : ∀ c ∈ ws, isSpace c = true)
    (ht : IsNum t) : (ws ++ (t ++ more)).dropWhile isSpace = t ++ more := by
  rw [List.dropWhile_append_of_pos hws]
  obtain ⟨⟨a, t', rfl, ha⟩, _⟩ := ht
  simp [List.dropWhile, ha]

theorem scanDouble_num (ws t sp more : List Char) (hws : ∀ c ∈ ws, isSpace c = true)
    (ht : IsNum t) (hs : IsSep sp) :
    scanDouble ⟨ws ++ (t ++ (sp ++ more)), false⟩ = Conv.ok t ⟨sp ++ more, false⟩ := by
  obtain ⟨x, sp', rfl⟩ := List.exists_cons_of_ne_nil hs.1
  have hx : isSpace x = true := hs.2 x (by simp)
  have hlex := ht.2 x (sp' ++ more) hx
  have hdrop := dropWhile_space_num ws t ((x :: sp') ++ more) hws ht
  obtain ⟨⟨a, t', rfl, ha⟩, _⟩ := ht
  unfold scanDouble skipSpace
  simp only [hdrop]
  simp only [List.cons_append] at hlex ⊢
  simp [hlex]

theorem skipSpace_sep (sp t more : List Char) (hs : ∀ c ∈ sp, isSpace c = true)
    (ht : IsNum t) : skipSpace ⟨sp ++ (t ++ more), false⟩ = ⟨t ++ more, false⟩ := by
  unfold skipSpace
  simp only [dropWhile_space_num sp t more hs ht]
  obtain ⟨⟨a, t', rfl, ha⟩, _⟩ := ht
  simp

/-- Reading a well-formed location: three conversions, the white space
after the third number stays unread, the end-of-file indicator stays clear. -/
theorem fscanf3_location (ws : List Char) (l : Location) (more : List Char) (v : Coords)
    (hws : ∀ c ∈ ws, isSpace c = true) (hl : l.wf) :
    fscanf3 ⟨ws ++ (l.text ++ more), false⟩ v = (3, ⟨l.sep3 ++ more, false⟩, l.at_) := by
  obtain ⟨h1, h2, h3, s1, s2, s3⟩ := hl
  have e1 : ws ++ (l.text ++ more) =
      ws ++ (l.at_.lon ++ (l.sep1 ++ (l.at_.lat ++ (l.sep2 ++ (l.at_.elev ++ (l.sep3 ++ more)))))) := by
    simp [Location.text, List.append_assoc]
  have c1 := scanDouble_num ws l.at_.lon l.sep1
    (l.at_.lat ++ (l.sep2 ++ (l.at_.elev ++ (l.sep3 ++ more)))) hws h1 s1
  have k2 := skipSpace_sep l.sep1 l.at_.lat (l.sep2 ++ (l.at_.elev ++ (l.sep3 ++ more))) s1.2 h2
  have c2 := scanDouble_num [] l.at_.lat l.sep2 (l.at_.elev ++ (l.sep3 ++ more)) (by simp) h2 s2
  have k3 := skipSpace_sep l.sep2 l.at_.elev (l.sep3 ++ more) s2.2 h3
  have c3 := scanDouble_num [] l.at_.elev l.sep3 more (by simp) h3 s3
  simp only [List.nil_append] at c2 c3
  unfold fscanf3
  rw [e1]
  simp only [c1, k2, c2, k3, c3]

/-- Reading when only white space is left: end of file is hit, nothing is
assigned. -/
theorem fscanf3_end (ws : List Char) (v : Coords) (hws : ∀ c ∈ ws, isSpace c = true) :
    fscanf3 ⟨ws, false⟩ v = (EOF, ⟨[], true⟩, v) := by
  have hd : ws.dropWhile isSpace = [] := by
    rw [List.dropWhile_eq_nil_iff]
    exact hws
  unfold fscanf3 scanDouble skipSpace
  simp [hd]

theorem outLines_append (a b : List Event) : outLines (a ++ b) = outLines a ++ outLines b := by
  simp [outLines, List.filterMap_append]

theorem queryCoords_append (a b : List Event) :
    queryCoords (a ++ b) = queryCoords a ++ queryCoords b := by
  simp [queryCoords, List.filterMap_append]

theorem queryCount_append (a b : List Event) :
    queryCount (a ++ b) = queryCount a + queryCount b := by
  simp [queryCount, List.filter_append]

theorem afterLoop_lines (env : Env) :
    outLines (afterLoop env).trace = [] ∧ queryCoords (afterLoop env).trace = [] ∧
    queryCount (afterLoop env).trace = 0 := by
  unfold afterLoop
  split_ifs <;> exact ⟨rfl, rfl, rfl⟩

/-- The loop over a well-formed input in which every query returns 0:
started after the `fscanf` that reads the first location, it ends with the
code after the loop, having queried and written every location in order. -/
theorem loop_locations (env : Env) (hq : ∀ k, (env.query k).ret = 0) :
    ∀ (ls : List Location), (∀ l ∈ ls, l.wf) →
    ∀ (ws : List Char), (∀ c ∈ ws, isSpace c = true) →
    ∀ (k : Nat) (v : Coords) (fuel : Nat), ls.length ≤ fuel →
      (loop env fuel k (fscanf3 ⟨ws ++ inputText ls, false⟩ v).2.1
        (fscanf3 ⟨ws ++ inputText ls, false⟩ v).2.2).code = (afterLoop env).code ∧
      outLines (loop env fuel k (fscanf3 ⟨ws ++ inputText ls, false⟩ v).2.1
        (fscanf3 ⟨ws ++ inputText ls, false⟩ v).2.2).trace = expectedLines env k ls ∧
      queryCoords (loop env fuel k (fscanf3 ⟨ws ++ inputText ls, false⟩ v).2.1
        (fscanf3 ⟨ws ++ inputText ls, false⟩ v).2.2).trace = ls.map (fun l => l.at_) ∧
      queryCount (loop env fuel k (fscanf3 ⟨ws ++ inputText ls, false⟩ v).2.1
        (fscanf3 ⟨ws ++ inputText ls, false⟩ v).2.2).trace = ls.length := by
  intro ls
  induction ls with
  | nil =>
    intro _ ws hws k v fuel _
    simp only [inputText, List.append_nil]
    rw [fscanf3_end ws v hws]
    simp only []
    rw [loop_eof env fuel k _ v rfl]
    obtain ⟨a1, a2, a3⟩ := afterLoop_lines env
    refine ⟨rfl, ?_, ?_, ?_⟩
    · rw [Run.after_trace, outLines_append, a1]; rfl
    · rw [Run.after_trace, queryCoords_append, a2]; rfl
    · rw [Run.after_trace, queryCount_append, a3]; rfl
  | cons l ls ih =>
    intro hwf ws hws k v fuel hfuel
    have hl := hwf l (by simp)
    have hwf' : ∀ x ∈ ls, x.wf := fun x hx => hwf x (by simp [hx])
    obtain ⟨fuel', rfl⟩ : ∃ n, fuel = n + 1 := ⟨fuel - 1, by simp at hfuel; omega⟩
    have hfuel' : ls.length ≤ fuel' := by simp at hfuel; omega
    simp only [inputText]
    rw [fscanf3_location ws l (inputText ls) v hws hl]
    simp only []
    rw [loop_ok env fuel' k _ _ rfl (hq k)]
    obtain ⟨i1, i2, i3, i4⟩ := ih hwf' l.sep3 hl.2.2.2.2.2.2 (k + 1) l.at_ fuel' hfuel'
    refine ⟨by rw [Run.after_code]; exact i1, ?_, ?_, ?_⟩
    · rw [Run.after_trace, outLines_append, i2]; rfl
    · rw [Run.after_trace, queryCoords_append, i3]; rfl
    · rw [Run.after_trace, queryCount_append, i4]
      simp only [List.length_cons]
      have : queryCount [Event.feof false, Event.query k numVals l.at_ 0,
          Event.outLine l.at_ (env.query k).pVals,
          Event.fscanf (fscanf3 ⟨l.sep3 ++ inputText ls, false⟩ l.at_).1] = 1 := rfl
      rw [this]
      omega

theorem pre_lines (pre : List Event) (h : ∀ e ∈ pre, preEvent e = true) :
    outLines pre = [] ∧ queryCoords pre = [] ∧ queryCount pre = 0 := by
  induction pre with
  | nil => exact ⟨rfl, rfl, rfl⟩
  | cons e pre ih =>
    obtain ⟨a1, a2, a3⟩ := ih (fun x hx => h x (by simp [hx]))
    have he := h e (by simp)
    have e1 : outLines (e :: pre) = outLines [e] ++ outLines pre := outLines_append [e] pre
    have e2 : queryCoords (e :: pre) = queryCoords [e] ++ queryCoords pre :=
      queryCoords_append [e] pre
    have e3 : queryCount (e :: pre) = queryCount [e] + queryCount pre :=
      queryCount_append [e] pre
    rw [e1, e2, e3, a1, a2, a3]
    cases e <;> first | exact ⟨rfl, rfl, rfl⟩ | simp [preEvent] at he

/-- Supplement to C1: when parseArgs returns, every library call and fopen
succeeds, every query returns 0, and the input file holds N well-formed
locations, each number followed by white space (so the last one is
followed by a newline, say), main makes exactly N queries, at the
coordinates of the N locations in order, writes exactly N output lines,
the i-th with the coordinates of the i-th location, and returns. -/
theorem main_writes_every_location (env : Env) (uninit b : Bufs) (err : List Event)
    (argv : List CStr) (lead : List Char) (ls : List Location) (fuel : Nat)
    (hparse : parseArgs env.permute uninit argv = ParseOutcome.returned b err)
    (hcq : env.createQuery = true) (heh : env.errorHandler = true)
    (hfn : env.filenameRet = 0) (hop : env.openRet = 0)
    (hin : env.fileIn = some (lead ++ inputText ls)) (hout : env.fileOut = true)
    (hq : ∀ k, (env.query k).ret = 0)
    (hlead : ∀ c ∈ lead, isSpace c = true) (hwf : ∀ l ∈ ls, l.wf)
    (hfuel : ls.length ≤ fuel) :
    (main env uninit argv fuel).code = some (if env.finalStatus = 0 then 0 else 1) ∧
    queryCount (main env uninit argv fuel).trace = ls.length ∧
    queryCoords (main env uninit argv fuel).trace = ls.map (fun l => l.at_) ∧
    outLines (main env uninit argv fuel).trace = expectedLines env 0 ls := by
  obtain ⟨j1, j2, j3, j4⟩ := loop_locations env hq ls hwf lead hlead 0 zeroCoords fuel hfuel
  have herr : ∀ e ∈ err, preEvent e = true := by
    intro e he
    rw [(parseArgs_err env.permute uninit argv).2 b err hparse e he]; rfl
  generalize hL : ([Event.createQuery true, Event.errorHandler true] ++
      (if strlen b.filenameLog > 0 then [Event.logFilename b.filenameLog] else [])) = L
  have hLpre : ∀ e ∈ L, preEvent e = true := by
    rw [← hL]
    split_ifs
    · exact List.all_eq_true.mp rfl
    · exact List.all_eq_true.mp rfl
  have hm : main env uninit argv fuel =
      Run.after (err ++ (L ++ [Event.filename b.filenameDB 0, Event.dbOpen 0,
        Event.fopen b.filenameIn false true, Event.fopen b.filenameOut true true,
        Event.fscanf (fscanf3 ⟨lead ++ inputText ls, false⟩ zeroCoords).1]))
        (loop env fuel 0 (fscanf3 ⟨lead ++ inputText ls, false⟩ zeroCoords).2.1
          (fscanf3 ⟨lead ++ inputText ls, false⟩ zeroCoords).2.2) := by
    unfold main mainBody
    rw [hparse]
    simp [hcq, heh, hfn, hop, hin, hout, Run.after, hL]
  have hpre := pre_lines _ (mem_pre herr (List.all_eq_true.mpr
    (mem_pre hLpre (X := [Event.filename b.filenameDB 0, Event.dbOpen 0,
        Event.fopen b.filenameIn false true, Event.fopen b.filenameOut true true,
        Event.fscanf (fscanf3 ⟨lead ++ inputText ls, false⟩ zeroCoords).1]) rfl)))
  obtain ⟨p1, p2, p3⟩ := hpre
  rw [hm]
  refine ⟨?_, ?_, ?_, ?_⟩
  · rw [Run.after_code, j1]
    unfold afterLoop
    by_cases h1 : env.finalStatus = 0
    · simp [h1]
    · simp [h1]
  · rw [Run.after_trace, queryCount_append, p3, j4]; omega
  · rw [Run.after_trace, queryCoords_append, p2, j3]; rfl
  · rw [Run.after_trace, outLines_append, p1, j2]; rfl

theorem twoLocations_wf : ∀ l ∈ twoLocations, l.wf := by
  have n1 : IsNum ['1'] := isNum_digits '1' [] rfl (by simp)
  have n2 : IsNum ['2'] := isNum_digits '2' [] rfl (by simp)
  have n3 : IsNum ['3'] := isNum_digits '3' [] rfl (by simp)
  have n4 : IsNum ['4'] := isNum_digits '4' [] rfl (by simp)
  have n6 : IsNum ['6', '0'] := isNum_digits '6' ['0'] rfl (by simp)
  have n7 : IsNum ['7'] := isNum_digits '7' [] rfl (by simp)
  have s1 : IsSep [' '] := ⟨by simp, by simp; rfl⟩
  have s2 : IsSep [' ', ' '] := ⟨by simp, by simp; rfl⟩
  have s3 : IsSep ['\n'] := ⟨by simp, by simp; rfl⟩
  intro l hl
  simp only [twoLocations, List.mem_cons, List.mem_singleton, List.not_mem_nil, or_false] at hl
  rcases hl with rfl | rfl
  · exact ⟨n1, n2, n3, s1, s1, s3⟩
  · exact ⟨n4, n6, n7, s1, s2, s3⟩

/-- The supplement to C1 at an input file of two lines. -/
theorem main_writes_every_location_witness :
    inputText twoLocations = "1 2 3\n4 60  7\n".toList ∧
    queryCount (main (envOK false (inputText twoLocations)) emptyBufs argvOK 2).trace = 2 ∧
    outLines (main (envOK false (inputText twoLocations)) emptyBufs argvOK 2).trace =
      [(⟨['1'], ['2'], ['3']⟩, []), (⟨['4'], ['6', '0'], ['7']⟩, [])] := by
  have h := main_writes_every_location (envOK false (inputText twoLocations)) emptyBufs
    ⟨"in".toList, "out".toList, "db".toList, []⟩ [] argvOK [] twoLocations 2
    (by decide) rfl rfl rfl rfl rfl rfl (fun _ => rfl) (by simp) twoLocations_wf (by decide)
  exact ⟨by decide, h.2.1, h.2.2.2⟩

end Cencalvm
